import Mathlib

/-!
Verification development for the We-Talk-To-You site-archiver crawler core
(`src/scraper.py` and `src/nav_scraper.py`), shallowly embedded in Lean 4.

Modelling conventions:

* A parsed URL (`urllib.parse.urlparse` result) is a `Url` structure holding
  the components the crawler inspects (`scheme`, `netloc`, `path`, `query`,
  `fragment`; the rarely-used `params` component is never non-empty for the
  URLs this crawler handles and is not modelled).  The Python code stores URL
  *strings* in its queue and visited-set; all such strings are produced by
  `geturl()` of a parse, so structural equality of `Url` values models string
  equality of those canonical URL strings.
* The HTTP collaborator (`requests.Session.get`) is a function
  `Web : Url → FetchResult`; `FetchResult.exn` models a raised exception,
  `FetchResult.resp` a response with status, lower-cased-on-demand
  `Content-Type` header (absent header modelled as `""`), decoded text body
  and raw byte body.
* The link extractor (BeautifulSoup `find_all("a", href=True)` composed with
  `urljoin`/`urlparse`, declared an external collaborator by the spec) is a
  function `String → Url → List Url` from page text and base URL to the
  absolute parsed candidate URLs, in document order.
* The filesystem is an association list from path strings to file contents;
  `os.makedirs` has no observable effect in this model and is dropped.
* `time.sleep`, `logging` calls, HTTP requests and queue appends are recorded
  as `Event`s in an observation trace.
* Loops whose termination depends on the remote site are given explicit fuel;
  exhausted fuel (modelling non-termination) yields `none` at run level.
-/

/-- Parsed URL: the components of a `urllib.parse.urlparse` result that the
crawler reads (the `params` component is not modelled, see file header). -/
structure Url where
  scheme : String
  netloc : String
  path : String
  query : String
  fragment : String
deriving DecidableEq, Repr

/-- Python `parsed._replace(fragment="")`, the fragment-stripping normalisation
applied to discovered links (src/scraper.py line 126, src/nav_scraper.py
line 144). -/
def defrag (u : Url) : Url :=
  { u with fragment := "" }

/-- Python `urlunsplit`, as called by `geturl()` on a parse: reassemble the URL
string from its components. -/
def Url.geturl (u : Url) : String :=
  let url := u.path
  let url :=
    if u.netloc ≠ "" ∨ (url.take 2 = "//") then
      (if url ≠ "" ∧ url.take 1 ≠ "/" then "//" ++ u.netloc ++ "/" ++ url
       else "//" ++ u.netloc ++ url)
    else url
  let url := if u.scheme ≠ "" then u.scheme ++ ":" ++ url else url
  let url := if u.query ≠ "" then url ++ "?" ++ u.query else url
  if u.fragment ≠ "" then url ++ "#" ++ u.fragment else url

/-- Result of `session.get(url, timeout=30)`: either a raised exception or a
response carrying status code, `Content-Type` header value (absent modelled as
`""`), decoded text body (`response.text`) and byte body (`response.content`). -/
inductive FetchResult where
  | exn
  | resp (status : Nat) (contentType : String) (text : String) (content : List Nat)
deriving DecidableEq, Repr

/-- The remote site as seen through the HTTP collaborator. -/
abbrev Web : Type := Url → FetchResult

/-- Contents of a file: bytes (PDF downloads) or text (HTML pages, extracted
text, timestamps). -/
inductive FileData where
  | bytes (b : List Nat)
  | text (t : String)
deriving DecidableEq, Repr

/-- Filesystem model: association list from path strings to contents. -/
abbrev FS : Type := List (String × FileData)

/-- Look up a file's contents. -/
def fsGet : FS → String → Option FileData
  | [], _ => none
  | e :: t, p => if e.1 = p then some e.2 else fsGet t p

/-- Python `os.path.exists`. -/
def fsExists (fs : FS) (p : String) : Bool :=
  (fsGet fs p).isSome

/-- Write (create or overwrite) a file. -/
def fsWrite (fs : FS) (p : String) (d : FileData) : FS :=
  (p, d) :: fs.filter (fun e => e.1 ≠ p)

/-- Python `os.path.getsize(p) > 0` for an existing file (byte size of the
UTF-8 encoding for text files). -/
def fsSizePos (fs : FS) (p : String) : Bool :=
  match fsGet fs p with
  | some (FileData.bytes b) => b.length != 0
  | some (FileData.text t) => t.utf8ByteSize != 0
  | none => false

/-- Observable actions of one crawl run. -/
inductive Event where
  | fetch (u : Url)
  | logFailure (u : Url)
  | logNon200 (u : Url) (status : Nat)
  | writePdf (path : String) (content : List Nat)
  | writeHtml (path : String) (text : String)
  | enqueue (u : Url)
  | sleep
deriving DecidableEq, Repr

/-- Python `s.lower()` (ASCII case suffices for the strings this code lowers). -/
def pyLower (s : String) : String :=
  String.mk (s.toList.map Char.toLower)

/-- Substring occurrence test on character lists. -/
def listContainsSub (pat : List Char) : List Char → Bool
  | [] => pat.isPrefixOf []
  | c :: t => pat.isPrefixOf (c :: t) || listContainsSub pat t

/-- Python `pat in s` substring test. -/
def strContainsSub (s pat : String) : Bool :=
  listContainsSub pat.toList s.toList

/-- Python `s.endswith(suf)`. -/
def strEndsWith (s suf : String) : Bool :=
  suf.toList.isSuffixOf s.toList

/-- Python `os.path.basename` (POSIX): the part after the last slash. -/
def pyBasename (p : String) : String :=
  String.mk (p.toList.foldl (fun acc c => if c = '/' then [] else acc ++ [c]) [])

/-- Python `s.lstrip("/")`. -/
def lstripSlash (s : String) : String :=
  String.mk (s.toList.dropWhile (fun c => c = '/'))

/-- Python `s.rstrip("/")`. -/
def rstripSlash (s : String) : String :=
  String.mk (s.toList.reverse.dropWhile (fun c => c = '/') |>.reverse)

/-- Python `os.path.join(a, b)` (POSIX, two arguments). -/
def pathJoin (a b : String) : String :=
  if b.toList.head? = some '/' then b
  else if a = "" ∨ a.toList.getLast? = some '/' then a ++ b
  else a ++ "/" ++ b

/-- Python `re.sub(r"[<>:/\\|?*]", "_", s)` (src/scraper.py line 91,
src/nav_scraper.py line 113). -/
def sanitizeFilename (s : String) : String :=
  String.mk (s.toList.map (fun c =>
    if c = '<' ∨ c = '>' ∨ c = ':' ∨ c = '/' ∨ c = '\\' ∨ c = '|' ∨ c = '?' ∨ c = '*'
    then '_' else c))

/-- Index of the last occurrence of `c` in `l`, if any. -/
def lastIndexOf (l : List Char) (c : Char) : Option Nat :=
  ((l.enum.filter (fun p => p.2 == c)).getLast?).map (fun p => p.1)

/-- Root part of Python `os.path.splitext` (POSIX): strip the extension that
starts at the last dot of the last path component, unless every character of
that component before the dot is itself a dot. -/
def splitextRoot (p : String) : String :=
  let l := p.toList
  let sepIndex : Int := match lastIndexOf l '/' with
    | some i => (i : Int)
    | none => -1
  let dotIndex : Int := match lastIndexOf l '.' with
    | some i => (i : Int)
    | none => -1
  if sepIndex < dotIndex then
    let between := (l.drop (sepIndex + 1).toNat).take (dotIndex - sepIndex - 1).toNat
    if between.any (fun ch => ch ≠ '.') then String.mk (l.take dotIndex.toNat) else p
  else p

/-- The PDF file name stored for a crawl target: sanitised basename of the URL
path, with a `.pdf` suffix forced if absent (src/scraper.py lines 91-93,
src/nav_scraper.py lines 113-115). -/
def pdfFilenameOf (u : Url) : String :=
  let filename := sanitizeFilename (pyBasename u.path)
  if ¬ strEndsWith (pyLower filename) ".pdf" then filename ++ ".pdf" else filename

/-- On-disk path of the stored PDF for a crawl target. -/
def pdfTargetPath (pdfDir : String) (u : Url) : String :=
  pathJoin pdfDir (pdfFilenameOf u)

/-- Relative storage path of an HTML page: URL path with leading slashes
stripped, with `index.html` appended when empty or directory-like
(src/scraper.py lines 106-108, src/nav_scraper.py lines 124-126). -/
def htmlRelPath (u : Url) : String :=
  let relPath := lstripSlash u.path
  if relPath = "" ∨ strEndsWith relPath "/" then relPath ++ "index.html" else relPath

/-- Response classification of the PDF branch guard: `Content-Type` contains
`application/pdf`, or the URL string, lower-cased, ends in `.pdf`
(src/scraper.py line 90, src/nav_scraper.py line 112). -/
def isPdfResponse (contentType : String) (u : Url) : Bool :=
  strContainsSub (pyLower contentType) "application/pdf" ||
    strEndsWith (pyLower u.geturl) ".pdf"

/-- Crawl-loop state: pending FIFO queue, visited-set, filesystem, and the
observation trace. -/
structure CrawlState where
  queue : List Url
  visited : List Url
  fs : FS
  trace : List Event
deriving DecidableEq, Repr

/-- Links appended to the queue while processing one HTML page: the body of
the `for a_tag in ...` loop (src/scraper.py lines 116-128, src/nav_scraper.py
lines 133-146) appends, in document order, exactly the candidate links that
pass the eligibility guard, defragmented, and whose defragmented form is not
in the visited-set (the visited-set does not change during the loop). -/
def eligibleLinks (accept : Url → Bool) (visited : List Url) (links : List Url) : List Url :=
  ((links.filter accept).map defrag).filter (fun n => ¬ visited.contains n)

/-- One iteration of the crawl `while queue:` loop.  The loop bodies of
`WorkAndIncomeScraper.scrape` (src/scraper.py lines 73-129) and
`NavScraper._crawl_category` (src/nav_scraper.py lines 98-147) are identical
up to the link-eligibility guard, which is passed in as `accept`
(scheme/domain checks for the full-site scraper, scheme/domain/path-prefix
for the per-category crawl). -/
def crawlStep (accept : Url → Bool) (web : Web) (extractLinks : String → Url → List Url)
    (htmlDir pdfDir : String) (s : CrawlState) : CrawlState :=
  match s.queue with
  | [] => s
  | currentUrl :: rest =>
    if currentUrl ∈ s.visited then
      { s with queue := rest }
    else
      let visited := currentUrl :: s.visited
      let trace := s.trace ++ [Event.fetch currentUrl]
      match web currentUrl with
      | FetchResult.exn =>
          { queue := rest, visited := visited, fs := s.fs,
            trace := trace ++ [Event.logFailure currentUrl] }
      | FetchResult.resp status contentType text content =>
        if status ≠ 200 then
          { queue := rest, visited := visited, fs := s.fs,
            trace := trace ++ [Event.logNon200 currentUrl status] }
        else if isPdfResponse contentType currentUrl then
          let pdfPath := pdfTargetPath pdfDir currentUrl
          if fsExists s.fs pdfPath then
            { queue := rest, visited := visited, fs := s.fs,
              trace := trace ++ [Event.sleep] }
          else
            { queue := rest, visited := visited,
              fs := fsWrite s.fs pdfPath (FileData.bytes content),
              trace := trace ++ [Event.writePdf pdfPath content, Event.sleep] }
        else
          let localPath := pathJoin htmlDir (htmlRelPath currentUrl)
          let found := eligibleLinks accept visited (extractLinks text currentUrl)
          { queue := rest ++ found, visited := visited,
            fs := fsWrite s.fs localPath (FileData.text text),
            trace := trace ++ [Event.writeHtml localPath text]
              ++ found.map Event.enqueue ++ [Event.sleep] }

/-- The crawl `while queue:` loop, with explicit fuel. -/
def crawlLoop (accept : Url → Bool) (web : Web) (extractLinks : String → Url → List Url)
    (htmlDir pdfDir : String) : Nat → CrawlState → CrawlState
  | 0, s => s
  | Nat.succ fuel, s =>
    if s.queue.isEmpty then s
    else crawlLoop accept web extractLinks htmlDir pdfDir fuel
      (crawlStep accept web extractLinks htmlDir pdfDir s)

/-- Link-eligibility guard of the full-site scraper: http/https scheme and
same domain as the start URL (src/scraper.py lines 121-124). -/
def scrapeAccept (baseDomain : String) (u : Url) : Bool :=
  (u.scheme == "http" || u.scheme == "https") && u.netloc == baseDomain

/-- Scraper configuration (`WorkAndIncomeScraper` constructor arguments). -/
structure ScrapeCfg where
  startUrl : Url
  outputDir : String
deriving Repr

/-- The `html` directory created in `__post_init__` (src/scraper.py line 49). -/
def htmlDirOf (cfg : ScrapeCfg) : String :=
  pathJoin cfg.outputDir "html"

/-- The `pdfs` directory created in `__post_init__` (src/scraper.py line 50). -/
def pdfDirOf (cfg : ScrapeCfg) : String :=
  pathJoin cfg.outputDir "pdfs"

/-- The `pdf_text` directory created in `__post_init__` (src/scraper.py line 51). -/
def textDirOf (cfg : ScrapeCfg) : String :=
  pathJoin cfg.outputDir "pdf_text"

/-- The last-scrape timestamp file (src/scraper.py line 55). -/
def lastScrapeFileOf (cfg : ScrapeCfg) : String :=
  pathJoin cfg.outputDir "last_scrape.txt"

/-- Full-site crawl `WorkAndIncomeScraper.scrape` (src/scraper.py lines
57-133): drain the frontier from the start URL, then write the current time
to the last-scrape file.  `visited0` is the instance's `_visited` set at call
time (empty for a fresh instance); `none` models a crawl that does not
terminate within `fuel` iterations. -/
def scrape (cfg : ScrapeCfg) (web : Web) (extractLinks : String → Url → List Url)
    (now : Int) (fuel : Nat) (visited0 : List Url) (fs0 : FS) : Option CrawlState :=
  let baseDomain := cfg.startUrl.netloc
  let s := crawlLoop (scrapeAccept baseDomain) web extractLinks
    (htmlDirOf cfg) (pdfDirOf cfg) fuel
    { queue := [cfg.startUrl], visited := visited0, fs := fs0, trace := [] }
  if s.queue.isEmpty then
    some { s with fs := fsWrite s.fs (lastScrapeFileOf cfg) (FileData.text (toString now)) }
  else none

/-- Urls of the `Event.fetch` events of a trace, in order: the sequence of
crawl targets actually fetched. -/
def fetchedUrls (tr : List Event) : List Url :=
  tr.filterMap (fun e => match e with
    | Event.fetch u => some u
    | _ => none)

/-- Urls of the `Event.enqueue` events of a trace, in order: the sequence of
targets appended to the pending queue during link discovery. -/
def enqueuedUrls (tr : List Event) : List Url :=
  tr.filterMap (fun e => match e with
    | Event.enqueue u => some u
    | _ => none)

/-- Number of `Event.sleep` events of a trace. -/
def sleepCount (tr : List Event) : Nat :=
  tr.countP (fun e => e == Event.sleep)

/-- Crawl state with each pending entry annotated by its discovery depth (the
start target at depth 0, links found on a depth-`d` page at depth `d + 1`),
and the fetched targets with their depths.  The annotation is ghost: no
branch of the loop reads it, and erasing it recovers the crawl loop above
(theorem `crawlLoop_erases_annot`). -/
structure AnnotState where
  queue : List (Url × Nat)
  visited : List Url
  fetches : List (Url × Nat)
deriving Repr

/-- Depth-annotated variant of `crawlStep`. -/
def annotStep (accept : Url → Bool) (web : Web) (extractLinks : String → Url → List Url)
    (s : AnnotState) : AnnotState :=
  match s.queue with
  | [] => s
  | (u, d) :: rest =>
    if u ∈ s.visited then { s with queue := rest }
    else
      let visited := u :: s.visited
      let fetches := s.fetches ++ [(u, d)]
      match web u with
      | FetchResult.exn => { queue := rest, visited := visited, fetches := fetches }
      | FetchResult.resp status contentType text _ =>
        if status ≠ 200 then { queue := rest, visited := visited, fetches := fetches }
        else if isPdfResponse contentType u then
          { queue := rest, visited := visited, fetches := fetches }
        else
          { queue := rest ++ (eligibleLinks accept visited (extractLinks text u)).map
              (fun n => (n, d + 1)),
            visited := visited, fetches := fetches }

/-- Depth-annotated variant of `crawlLoop`. -/
def annotLoop (accept : Url → Bool) (web : Web) (extractLinks : String → Url → List Url) :
    Nat → AnnotState → AnnotState
  | 0, s => s
  | Nat.succ fuel, s =>
    if s.queue.isEmpty then s
    else annotLoop accept web extractLinks fuel (annotStep accept web extractLinks s)

/-- Python `s.strip()` (whitespace strip, as applied to the timestamp file
contents). -/
def pyStrip (s : String) : String :=
  String.mk ((s.toList.dropWhile Char.isWhitespace).reverse.dropWhile Char.isWhitespace
    |>.reverse)

/-- Decimal digit-string value, `none` on an empty list or a non-digit. -/
def parseDigits (l : List Char) : Option Nat :=
  if l = [] then none
  else l.foldl (fun acc c =>
    acc.bind (fun n => if c.isDigit then some (n * 10 + (c.toNat - 48)) else none))
    (some 0)

/-- Python `int(s)` on a stripped string: optional sign followed by decimal
digits, `none` modelling a raised `ValueError` (digit-group underscores and
non-ASCII digits, which `int` also accepts, never occur in timestamp files
this program writes and are not modelled). -/
def parsePyInt (s : String) : Option Int :=
  match (pyStrip s).toList with
  | '-' :: t => (parseDigits t).map (fun n => -(n : Int))
  | '+' :: t => (parseDigits t).map (fun n => (n : Int))
  | t => (parseDigits t).map (fun n => (n : Int))

/-- Staleness check `WorkAndIncomeScraper.needs_update` (src/scraper.py lines
164-181).  `fileRead` is the result of opening and reading the last-scrape
file, with `none` modelling a raised exception (absent or unreadable file);
`now` is `time.time()`. -/
def needs_update (fileRead : Option String) (now : Int) (days : Int) : Bool :=
  match fileRead with
  | none => true
  | some contents =>
    match parsePyInt (pyStrip contents) with
    | none => true
    | some lastTs => decide (now - lastTs > days * 24 * 3600)

/-- Prefix test on strings (Python `s.startswith(pre)`). -/
def startsWithStr (s pre : String) : Bool :=
  pre.toList.isPrefixOf s.toList

/-- Split a character list at the first occurrence of `c`: the part before and
the part after (the whole list and `[]` when `c` does not occur). -/
def splitFirstAt (c : Char) : List Char → List Char × List Char
  | [] => ([], [])
  | x :: t =>
    if x = c then ([], t)
    else
      let r := splitFirstAt c t
      (x :: r.1, r.2)

/-- Component split of `urllib.parse.urlparse` for a root-relative href (one
beginning with `/`, the only shape the navigation filter lets through):
fragment after the first `#`, query after the first `?` of what precedes it,
path the remainder. -/
def hrefParts (href : String) : String × String × String :=
  let hs := splitFirstAt '#' href.toList
  let pq := splitFirstAt '?' hs.1
  (String.mk pq.1, String.mk pq.2, String.mk hs.2)

/-- Python `urljoin(base, href)` for a root-relative href: keep the base
scheme and netloc, take path, query and fragment from the href. -/
def urljoinRootRel (base : Url) (href : String) : Url :=
  let parts := hrefParts href
  { scheme := base.scheme, netloc := base.netloc,
    path := parts.1, query := parts.2.1, fragment := parts.2.2 }

/-- Split a character list on every occurrence of `c` (Python
`s.split(sep)`). -/
def splitOnChar (c : Char) : List Char → List (List Char)
  | [] => [[]]
  | x :: t =>
    let r := splitOnChar c t
    if x = c then [] :: r
    else
      match r with
      | [] => [[x]]
      | h :: rt => (x :: h) :: rt

/-- Lexicographic comparison of character lists by code point (Python string
`<=`, as used by `sorted`). -/
def listLeChars : List Char → List Char → Bool
  | [], _ => true
  | _ :: _, [] => false
  | a :: s, b :: t => if a = b then listLeChars s t else decide (a < b)

/-- Category-link discovery of `NavScraper.scrape` (src/nav_scraper.py lines
55-73): from the navigation page's raw hrefs, keep those beginning `/map/`
whose path has at most three non-empty segments, except the top
`/map/index.html` itself; resolve each against the start URL; the resulting
set, sorted by URL string (`sorted(nav_links_set)`). -/
def navCategoryLinks (startUrl : Url) (hrefs : List String) : List Url :=
  let collected := hrefs.filterMap (fun href =>
    if ¬ startsWithStr href "/map/" then none
    else
      let parts := hrefParts href
      let segments := (splitOnChar '/' parts.1.toList).filter (fun seg => seg ≠ [])
      if segments.length ≤ 3 then
        if segments = ["map".toList, "index.html".toList] then none
        else some (urljoinRootRel startUrl href)
      else none)
  (collected.dedup).mergeSort (fun a b => listLeChars a.geturl.toList b.geturl.toList)

/-- Python `s.rsplit("/", 1)[0]`: everything before the last slash, or the
whole string when there is none. -/
def rsplitHeadSlash (s : String) : String :=
  if '/' ∈ s.toList then
    String.mk (((s.toList.reverse.dropWhile (fun c => c ≠ '/')).drop 1).reverse)
  else s

/-- Base directory of a category: drop the trailing filename when the start
path ends in `.html`, else treat the path itself as the directory
(src/nav_scraper.py lines 88-92). -/
def categoryBaseDir (startPath : String) : String :=
  if strEndsWith startPath ".html" then rsplitHeadSlash startPath ++ "/"
  else rstripSlash startPath ++ "/"

/-- Link-eligibility guard of the per-category crawl: http/https scheme, same
domain, and path inside the category base directory (src/nav_scraper.py lines
137-142). -/
def navAccept (baseDomain baseDir : String) (u : Url) : Bool :=
  (u.scheme == "http" || u.scheme == "https") && u.netloc == baseDomain
    && startsWithStr u.path baseDir

/-- Per-category crawl `NavScraper._crawl_category` (src/nav_scraper.py lines
82-147): fresh visited-set, frontier seeded with the category URL, loop body
shared with the full-site scraper up to the eligibility guard. -/
def crawlCategory (web : Web) (extractLinks : String → Url → List Url)
    (htmlDir pdfDir : String) (categoryUrl : Url) (fuel : Nat) (fs : FS) : CrawlState :=
  crawlLoop (navAccept categoryUrl.netloc (categoryBaseDir categoryUrl.path))
    web extractLinks htmlDir pdfDir fuel
    { queue := [categoryUrl], visited := [], fs := fs, trace := [] }

/-- Python `os.path.relpath(p, base)` in the cases produced by `os.walk(base)`
(`p` equal to or beneath `base`; other cases do not arise in this code). -/
def relpathUnder (p base : String) : String :=
  if p = base then "."
  else if (base ++ "/").toList.isPrefixOf p.toList then
    String.mk (p.toList.drop (base ++ "/").toList.length)
  else p

/-- Result of an extraction pass: updated filesystem plus the PDF paths handed
to the external text extractor, in order. -/
structure ExtractResult where
  fs : FS
  calls : List String
deriving Repr

/-- Mirrored text-output path of one walked PDF: its path relative to the PDF
root, extension replaced by `.txt`, under the text root (src/scraper.py lines
146-149, src/nav_scraper.py lines 155-158). -/
def txtTargetPath (pdfDir textDir root name : String) : String :=
  pathJoin textDir (splitextRoot (relpathUnder (pathJoin root name) pdfDir) ++ ".txt")

/-- Body of the extraction walk for one `(root, filename)` directory entry
(src/scraper.py lines 143-161, src/nav_scraper.py lines 152-165; identical in
the pure filesystem model, where `os.path.getsize` cannot raise). -/
def processPdfFile (pdfDir textDir : String) (extractor : String → String)
    (acc : ExtractResult) (entry : String × String) : ExtractResult :=
  if ¬ strEndsWith (pyLower entry.2) ".pdf" then acc
  else
    let pdfPath := pathJoin entry.1 entry.2
    let txtFull := txtTargetPath pdfDir textDir entry.1 entry.2
    if fsExists acc.fs txtFull && fsSizePos acc.fs txtFull then acc
    else
      { fs := fsWrite acc.fs txtFull (FileData.text (extractor pdfPath)),
        calls := acc.calls ++ [pdfPath] }

/-- Extraction post-pass `WorkAndIncomeScraper.extract_all_pdfs`
(src/scraper.py lines 135-162) and `NavScraper._extract_all_pdfs`
(src/nav_scraper.py lines 149-165): `walkFiles` is the `(root, filename)`
enumeration produced by `os.walk(pdf_dir)`. -/
def extract_all_pdfs (pdfDir textDir : String) (extractor : String → String)
    (walkFiles : List (String × String)) (fs : FS) : ExtractResult :=
  walkFiles.foldl (processPdfFile pdfDir textDir extractor) { fs := fs, calls := [] }

/-- Fixture URL `A` (page graphs of §8 of the spec). -/
def urlA : Url := ⟨"https", "x", "/a.html", "", ""⟩

/-- Fixture URL `B`. -/
def urlB : Url := ⟨"https", "x", "/b.html", "", ""⟩

/-- Fixture URL `C`. -/
def urlC : Url := ⟨"https", "x", "/c.html", "", ""⟩

/-- Fixture URL `D`. -/
def urlD : Url := ⟨"https", "x", "/d.html", "", ""⟩

/-- Fixture configuration: start at `urlA`, output under `data`. -/
def cfgFix : ScrapeCfg := ⟨urlA, "data"⟩

/-- Fixture site where every page answers 200 with an HTML body derived from
its path. -/
def webHtml : Web := fun u => FetchResult.resp 200 "text/html" ("page" ++ u.path) []

/-- Fixture link structure `A → {B, C}`, `B → {D}`, `C → {}`. -/
def linksBfs : String → Url → List Url := fun _ base =>
  if base = urlA then [urlB, urlC] else if base = urlB then [urlD] else []

/-- Fixture link structure `A → {B, C}`, `B → {D}`, `C → {D}`: target `D` is
discovered from two different pages. -/
def linksDiamond : String → Url → List Url := fun _ base =>
  if base = urlA then [urlB, urlC]
  else if base = urlB then [urlD]
  else if base = urlC then [urlD]
  else []

/-- Fixture URL `https://x/y#f`. -/
def urlYf : Url := ⟨"https", "x", "/y", "", "f"⟩

/-- Fixture URL `https://x/y#g`. -/
def urlYg : Url := ⟨"https", "x", "/y", "", "g"⟩

/-- Fixture URL `https://x/y`. -/
def urlY : Url := ⟨"https", "x", "/y", "", ""⟩

/-- Fixture configuration starting at the fragment-carrying `urlYf`. -/
def cfgFrag : ScrapeCfg := ⟨urlYf, "data"⟩

/-- Fixture link structure: the page fetched for the start URL carries an
href to `https://x/y#g`. -/
def linksFrag : String → Url → List Url := fun _ base =>
  if base = urlYf then [urlYg] else []

/-- Fixture site where every fetch raises a network error. -/
def webDown : Web := fun _ => FetchResult.exn

/-- Fixture site where fetching `urlB` raises and every other page answers
200 with HTML. -/
def webBFail : Web := fun u =>
  if u = urlB then FetchResult.exn else FetchResult.resp 200 "text/html" ("page" ++ u.path) []

/-- Fixture PDF target `https://x/d1/doc.pdf`. -/
def urlP1 : Url := ⟨"https", "x", "/d1/doc.pdf", "", ""⟩

/-- Fixture PDF target `https://x/d2/doc.pdf`: distinct URL, same path
basename as `urlP1`. -/
def urlP2 : Url := ⟨"https", "x", "/d2/doc.pdf", "", ""⟩

/-- Fixture site serving two distinct PDFs with colliding basenames, HTML
elsewhere. -/
def webPdf : Web := fun u =>
  if u = urlP1 then FetchResult.resp 200 "application/pdf" "" [1]
  else if u = urlP2 then FetchResult.resp 200 "application/pdf" "" [2]
  else FetchResult.resp 200 "text/html" ("page" ++ u.path) []

/-- Fixture link structure: the start page links to both PDF targets. -/
def linksPdf : String → Url → List Url := fun _ base =>
  if base = urlA then [urlP1, urlP2] else []

/-- Fixture walk of the PDF root: two PDFs directly under `data/pdfs`. -/
def walkFix : List (String × String) := [("data/pdfs", "a.pdf"), ("data/pdfs", "b.pdf")]

/-- Fixture text extractor: finds text only in `b.pdf`. -/
def extractorFix : String → String := fun p => if p = "data/pdfs/b.pdf" then "hello" else ""

/-- Fixture navigation page hrefs: a single category link. -/
def navHrefsFix : String → List String := fun _ => ["/map/card-services/index.html"]

/-- Python `Response.raise_for_status()`: raises exactly for status codes in
the 4xx and 5xx ranges. -/
def raiseForStatusErrs (status : Nat) : Bool :=
  400 ≤ status && status < 600

/-- Navigation-scrape entry point `NavScraper.scrape` (src/nav_scraper.py
lines 47-80).  `extractHrefs` models BeautifulSoup anchor-href extraction on
the navigation page.  The initial fetch is not wrapped in a `try`, so a raised
network error (`FetchResult.exn`) or a `raise_for_status` error propagates to
the caller, modelled as `Except.error`.  Inside the `.ok` case, `none` models
a category crawl that does not terminate within `fuel`. -/
def navScrape (cfg : ScrapeCfg) (web : Web) (extractHrefs : String → List String)
    (extractLinks : String → Url → List Url) (extractor : String → String)
    (walkFiles : List (String × String)) (now : Int) (fuel : Nat) (fs0 : FS) :
    Except Unit (Option FS) :=
  match web cfg.startUrl with
  | FetchResult.exn => Except.error ()
  | FetchResult.resp status _ text _ =>
    if raiseForStatusErrs status then Except.error ()
    else
      let navLinks := navCategoryLinks cfg.startUrl (extractHrefs text)
      let afterCats := navLinks.foldl (fun acc link =>
        acc.bind (fun fs =>
          let st := crawlCategory web extractLinks (htmlDirOf cfg) (pdfDirOf cfg) link fuel fs
          if st.queue.isEmpty then some st.fs else none)) (some fs0)
      match afterCats with
      | none => Except.ok none
      | some fs1 =>
        let er := extract_all_pdfs (pdfDirOf cfg) (textDirOf cfg) extractor walkFiles fs1
        Except.ok (some (fsWrite er.fs (pathJoin cfg.outputDir "last_nav_scrape.txt")
          (FileData.text (toString now))))

/-- Number of fetched targets of a trace whose fetch produced a 200 response
(the only fetches the loop follows with `time.sleep`). -/
def okFetchCount (web : Web) (tr : List Event) : Nat :=
  (fetchedUrls tr).countP (fun u =>
    match web u with
    | FetchResult.resp status _ _ _ => status == 200
    | FetchResult.exn => false)

/-! Invariants and helper predicates used by the development. -/

/-- BFS frontier invariant of the annotated crawl: queue depths are
non-decreasing, any two queue depths differ by at most one, fetch depths are
non-decreasing, and every fetched depth is bounded by every queued depth. -/
def BfsInv (s : AnnotState) : Prop :=
  List.Pairwise (fun x y => x ≤ y) (s.queue.map Prod.snd)
  ∧ (∀ x ∈ s.queue.map Prod.snd, ∀ y ∈ s.queue.map Prod.snd, y ≤ x + 1)
  ∧ List.Pairwise (fun x y => x ≤ y) (s.fetches.map Prod.snd)
  ∧ (∀ f ∈ s.fetches.map Prod.snd, ∀ q ∈ s.queue.map Prod.snd, f ≤ q)

/-- Fetch-trace invariant, on a trace and a visited-set: no target is fetched
twice, and every fetched target is visited. -/
def FetchOk (tr : List Event) (v : List Url) : Prop :=
  (fetchedUrls tr).Nodup ∧ ∀ u ∈ fetchedUrls tr, u ∈ v

/-- Fragment invariant on a queue and a trace: every pending and every
fetched target is fragment-free. -/
def FragOk (q : List Url) (tr : List Event) : Prop :=
  (∀ u ∈ q, u.fragment = "") ∧ ∀ u ∈ fetchedUrls tr, u.fragment = ""

/-- Directory prefix shared by the output subdirectories of one configuration:
the output directory, with a slash appended when needed. -/
def joinRoot (out : String) : String :=
  if out = "" ∨ out.toList.getLast? = some '/' then out else out ++ "/"

/-! ## Generic trace and filesystem lemmas -/

theorem fetchedUrls_append (l₁ l₂ : List Event) :
    fetchedUrls (l₁ ++ l₂) = fetchedUrls l₁ ++ fetchedUrls l₂ :=
  List.filterMap_append l₁ l₂ _

theorem enqueuedUrls_append (l₁ l₂ : List Event) :
    enqueuedUrls (l₁ ++ l₂) = enqueuedUrls l₁ ++ enqueuedUrls l₂ :=
  List.filterMap_append l₁ l₂ _

theorem sleepCount_append (l₁ l₂ : List Event) :
    sleepCount (l₁ ++ l₂) = sleepCount l₁ + sleepCount l₂ :=
  List.countP_append _ _ _

/-! ## C6: the staleness policy -/

/-- C6: `needs_update(max_age_days)` returns true whenever the persisted
last-run timestamp is absent, unreadable or not parseable as an integer; with
a valid integer timestamp it returns true iff
`now - last_run > max_age_days * 86400`, so a 31-day-old timestamp with a
30-day threshold yields true and a 29-day-old one yields false. -/
theorem needs_update_spec (now days ts : Int) (s : String)
    (hparse : parsePyInt (pyStrip s) = some ts) :
    needs_update none now days = true
    ∧ (∀ s2 : String, parsePyInt (pyStrip s2) = none → needs_update (some s2) now days = true)
    ∧ (needs_update (some s) now days = true ↔ now - ts > days * 86400)
    ∧ (ts = now - 31 * 86400 → needs_update (some s) now 30 = true)
    ∧ (ts = now - 29 * 86400 → needs_update (some s) now 30 = false) := by
  refine ⟨rfl, ?_, ?_, ?_, ?_⟩
  · intro s2 h
    simp [needs_update, h]
  · simp only [needs_update, hparse, decide_eq_true_eq]
    omega
  · intro h
    simp only [needs_update, hparse, decide_eq_true_eq, h]
    omega
  · intro h
    simp only [needs_update, hparse, h, decide_eq_false_iff_not]
    omega

/-- Witness for `needs_update_spec` at a concrete timestamp and clock. -/
theorem needs_update_spec_witness :
    parsePyInt (pyStrip "100") = some 100
    ∧ (needs_update none 2678500 30 = true
      ∧ (∀ s2 : String, parsePyInt (pyStrip s2) = none →
          needs_update (some s2) 2678500 30 = true)
      ∧ (needs_update (some "100") 2678500 30 = true ↔ (2678500 : Int) - 100 > 30 * 86400)
      ∧ ((100 : Int) = 2678500 - 31 * 86400 → needs_update (some "100") 2678500 30 = true)
      ∧ ((100 : Int) = 2678500 - 29 * 86400 → needs_update (some "100") 2678500 30 = false)) :=
  ⟨rfl, needs_update_spec 2678500 30 100 "100" rfl⟩

/-! ## Event-observer simp lemmas -/

theorem fetchedUrls_nil : fetchedUrls [] = [] := rfl

theorem fetchedUrls_fetch (u : Url) (tr : List Event) :
    fetchedUrls (Event.fetch u :: tr) = u :: fetchedUrls tr := rfl

theorem fetchedUrls_logFailure (u : Url) (tr : List Event) :
    fetchedUrls (Event.logFailure u :: tr) = fetchedUrls tr := rfl

theorem fetchedUrls_logNon200 (u : Url) (st : Nat) (tr : List Event) :
    fetchedUrls (Event.logNon200 u st :: tr) = fetchedUrls tr := rfl

theorem fetchedUrls_writePdf (p : String) (c : List Nat) (tr : List Event) :
    fetchedUrls (Event.writePdf p c :: tr) = fetchedUrls tr := rfl

theorem fetchedUrls_writeHtml (p t : String) (tr : List Event) :
    fetchedUrls (Event.writeHtml p t :: tr) = fetchedUrls tr := rfl

theorem fetchedUrls_enqueue (u : Url) (tr : List Event) :
    fetchedUrls (Event.enqueue u :: tr) = fetchedUrls tr := rfl

theorem fetchedUrls_sleep (tr : List Event) :
    fetchedUrls (Event.sleep :: tr) = fetchedUrls tr := rfl

theorem fetchedUrls_map_enqueue (l : List Url) : fetchedUrls (l.map Event.enqueue) = [] := by
  induction l with
  | nil => rfl
  | cons a t ih => simpa [fetchedUrls_enqueue] using ih

/-! ## C1: breadth-first order -/

theorem map_fst_tag (n : Nat) (l : List Url) :
    List.map (Prod.fst ∘ fun u => (u, n)) l = l := by
  induction l with
  | nil => rfl
  | cons a t ih => simp [ih]

theorem pairwise_true (l : List Url) : List.Pairwise (fun _ _ => True) l := by
  induction l with
  | nil => exact List.Pairwise.nil
  | cons a t ih => exact List.Pairwise.cons (fun _ _ => trivial) ih

/-- Erasing the ghost depth annotation from one `annotStep` recovers one
`crawlStep`, on the queue, the visited-set and the fetch sequence. -/
theorem annotStep_erase (accept : Url → Bool) (web : Web)
    (extractLinks : String → Url → List Url) (htmlDir pdfDir : String)
    (a : AnnotState) (c : CrawlState)
    (hq : a.queue.map Prod.fst = c.queue) (hv : a.visited = c.visited)
    (hf : a.fetches.map Prod.fst = fetchedUrls c.trace) :
    (annotStep accept web extractLinks a).queue.map Prod.fst
        = (crawlStep accept web extractLinks htmlDir pdfDir c).queue
    ∧ (annotStep accept web extractLinks a).visited
        = (crawlStep accept web extractLinks htmlDir pdfDir c).visited
    ∧ (annotStep accept web extractLinks a).fetches.map Prod.fst
        = fetchedUrls (crawlStep accept web extractLinks htmlDir pdfDir c).trace := by
  obtain ⟨aq, av, af⟩ := a
  obtain ⟨cq, cv, cfs, ctr⟩ := c
  simp only at hq hv hf
  subst hq hv
  cases aq with
  | nil =>
    exact ⟨rfl, rfl, hf⟩
  | cons e rest =>
    obtain ⟨u, d⟩ := e
    by_cases hmem : u ∈ av
    · refine ⟨?_, ?_, ?_⟩ <;>
        simp [annotStep, crawlStep, hmem, hf]
    · cases hw : web u with
      | exn =>
        refine ⟨?_, ?_, ?_⟩ <;>
          simp [annotStep, crawlStep, hmem, hw, fetchedUrls_append, fetchedUrls_fetch,
            fetchedUrls_logFailure, fetchedUrls_nil, hf]
      | resp status contentType text content =>
        by_cases hst : status = 200
        · by_cases hpdf : isPdfResponse contentType u = true
          · by_cases hex : fsExists cfs (pdfTargetPath pdfDir u) = true
            · refine ⟨?_, ?_, ?_⟩ <;>
                simp [annotStep, crawlStep, hmem, hw, hst, hpdf, hex, fetchedUrls_append,
                  fetchedUrls_fetch, fetchedUrls_sleep, fetchedUrls_nil, hf]
            · refine ⟨?_, ?_, ?_⟩ <;>
                simp [annotStep, crawlStep, hmem, hw, hst, hpdf, hex, fetchedUrls_append,
                  fetchedUrls_fetch, fetchedUrls_writePdf, fetchedUrls_sleep,
                  fetchedUrls_nil, hf]
          · refine ⟨?_, ?_, ?_⟩ <;>
              simp [annotStep, crawlStep, hmem, hw, hst, hpdf, fetchedUrls_append,
                fetchedUrls_fetch, fetchedUrls_writeHtml, fetchedUrls_map_enqueue,
                fetchedUrls_sleep, fetchedUrls_nil, hf, List.map_append, List.map_map,
                map_fst_tag]
        · refine ⟨?_, ?_, ?_⟩ <;>
            simp [annotStep, crawlStep, hmem, hw, hst, fetchedUrls_append,
              fetchedUrls_fetch, fetchedUrls_logNon200, fetchedUrls_nil, hf]

/-- Erasing the ghost depth annotation from the annotated loop recovers the
crawl loop. -/
theorem crawlLoop_erases_annot (accept : Url → Bool) (web : Web)
    (extractLinks : String → Url → List Url) (htmlDir pdfDir : String) (fuel : Nat)
    (a : AnnotState) (c : CrawlState)
    (hq : a.queue.map Prod.fst = c.queue) (hv : a.visited = c.visited)
    (hf : a.fetches.map Prod.fst = fetchedUrls c.trace) :
    (annotLoop accept web extractLinks fuel a).queue.map Prod.fst
        = (crawlLoop accept web extractLinks htmlDir pdfDir fuel c).queue
    ∧ (annotLoop accept web extractLinks fuel a).visited
        = (crawlLoop accept web extractLinks htmlDir pdfDir fuel c).visited
    ∧ (annotLoop accept web extractLinks fuel a).fetches.map Prod.fst
        = fetchedUrls (crawlLoop accept web extractLinks htmlDir pdfDir fuel c).trace := by
  induction fuel generalizing a c with
  | zero => exact ⟨hq, hv, hf⟩
  | succ n ih =>
    have hempty : a.queue.isEmpty = c.queue.isEmpty := by
      rw [← hq]
      cases a.queue <;> simp [List.isEmpty]
    simp only [annotLoop, crawlLoop, hempty]
    by_cases he : c.queue.isEmpty
    · simp only [he, ite_true]
      exact ⟨hq, hv, hf⟩
    · simp only [he, ite_false]
      obtain ⟨h1, h2, h3⟩ :=
        annotStep_erase accept web extractLinks htmlDir pdfDir a c hq hv hf
      exact ih _ _ h1 h2 h3


/-- Popping the queue head without fetching preserves the BFS invariant. -/
theorem BfsInv_pop (e : Url × Nat) (rest : List (Url × Nat))
    (visited visited' : List Url) (fetches : List (Url × Nat))
    (h : BfsInv ⟨e :: rest, visited, fetches⟩) :
    BfsInv ⟨rest, visited', fetches⟩ := by
  obtain ⟨h1, h2, h3, h4⟩ := h
  simp only [BfsInv, List.map_cons] at *
  refine ⟨h1.of_cons, ?_, h3, ?_⟩
  · intro x hx y hy
    exact h2 x (List.mem_cons_of_mem _ hx) y (List.mem_cons_of_mem _ hy)
  · intro f hff q hq
    exact h4 f hff q (List.mem_cons_of_mem _ hq)

/-- Fetching the queue head at depth `d` and appending children at depth
`d + 1` preserves the BFS invariant. -/
theorem BfsInv_fetch (u : Url) (d : Nat) (rest : List (Url × Nat))
    (visited visited' : List Url) (fetches : List (Url × Nat)) (links : List Url)
    (h : BfsInv ⟨(u, d) :: rest, visited, fetches⟩) :
    BfsInv ⟨rest ++ links.map (fun n => (n, d + 1)), visited', fetches ++ [(u, d)]⟩ := by
  obtain ⟨h1, h2, h3, h4⟩ := h
  simp only [List.map_cons] at h1 h2 h4
  have hd_le : ∀ q ∈ rest.map Prod.snd, d ≤ q := (List.pairwise_cons.1 h1).1
  have hq_le : ∀ q ∈ rest.map Prod.snd, q ≤ d + 1 := by
    intro q hq
    exact h2 d (List.mem_cons_self _ _) q (List.mem_cons_of_mem _ hq)
  have hf_le : ∀ f ∈ fetches.map Prod.snd, f ≤ d := by
    intro f hff
    exact h4 f hff d (List.mem_cons_self _ _)
  have htag : ∀ y ∈ (links.map (fun n => (n, d + 1))).map Prod.snd, y = d + 1 := by
    intro y hy
    simp only [List.map_map, List.mem_map, Function.comp] at hy
    obtain ⟨n, _, rfl⟩ := hy
    rfl
  constructor
  · -- queue depths non-decreasing
    simp only [List.map_append]
    rw [List.pairwise_append]
    refine ⟨(List.pairwise_cons.1 h1).2, ?_, ?_⟩
    · rw [List.map_map]
      exact List.Pairwise.map _ (fun _ _ _ => le_refl _) (pairwise_true links)
    · intro a ha b hb
      rw [htag b hb]
      exact hq_le a ha
  refine ⟨?_, ?_, ?_⟩
  · -- any two queue depths differ by at most one
    intro x hx y hy
    simp only [List.map_append] at hx hy
    rcases List.mem_append.1 hx with hx | hx <;> rcases List.mem_append.1 hy with hy | hy
    · exact h2 x (List.mem_cons_of_mem _ hx) y (List.mem_cons_of_mem _ hy)
    · rw [htag y hy]
      have := hd_le x hx
      omega
    · rw [htag x hx]
      have := hq_le y hy
      omega
    · rw [htag x hx, htag y hy]
      omega
  · -- fetch depths non-decreasing
    simp only [List.map_append]
    rw [List.pairwise_append]
    refine ⟨h3, by simp, ?_⟩
    intro a ha b hb
    simp only [List.map_cons, List.map_nil, List.mem_singleton] at hb
    rw [hb]
    exact hf_le a ha
  · -- every fetched depth bounded by every queued depth
    intro f hff q hq
    simp only [List.map_append] at hff hq
    rcases List.mem_append.1 hff with hff | hff <;> rcases List.mem_append.1 hq with hq | hq
    · exact h4 f hff q (List.mem_cons_of_mem _ hq)
    · rw [htag q hq]
      have := hf_le f hff
      omega
    · simp only [List.map_cons, List.map_nil, List.mem_singleton] at hff
      rw [hff]
      exact hd_le q hq
    · simp only [List.map_cons, List.map_nil, List.mem_singleton] at hff
      rw [hff, htag q hq]
      omega

/-- One `annotStep` preserves the BFS invariant. -/
theorem BfsInv_annotStep (accept : Url → Bool) (web : Web)
    (extractLinks : String → Url → List Url) (s : AnnotState) (h : BfsInv s) :
    BfsInv (annotStep accept web extractLinks s) := by
  obtain ⟨q, v, f⟩ := s
  cases q with
  | nil => simpa [annotStep] using h
  | cons e rest =>
    obtain ⟨u, d⟩ := e
    by_cases hmem : u ∈ v
    · simp only [annotStep, if_pos hmem]
      exact BfsInv_pop (u, d) rest v v f h
    · cases hw : web u with
      | exn =>
        simp only [annotStep, if_neg hmem, hw]
        simpa using BfsInv_fetch u d rest v (u :: v) f [] h
      | resp status contentType text content =>
        by_cases hst : status = 200
        · by_cases hpdf : isPdfResponse contentType u = true
          · simp only [annotStep, if_neg hmem, hw, hst, hpdf]
            simpa using BfsInv_fetch u d rest v (u :: v) f [] h
          · simp only [annotStep, if_neg hmem, hw]
            simp only [hst, hpdf, ite_false, ite_true, ne_eq, not_true_eq_false,
              Bool.false_eq_true, if_false]
            exact BfsInv_fetch u d rest v (u :: v) f _ h
        · simp only [annotStep, if_neg hmem, hw]
          have : (status ≠ 200) = True := by simp [hst]
          simp only [this, if_true]
          simpa using BfsInv_fetch u d rest v (u :: v) f [] h

/-- The annotated loop preserves the BFS invariant. -/
theorem BfsInv_annotLoop (accept : Url → Bool) (web : Web)
    (extractLinks : String → Url → List Url) (fuel : Nat) (s : AnnotState)
    (h : BfsInv s) : BfsInv (annotLoop accept web extractLinks fuel s) := by
  induction fuel generalizing s with
  | zero => simpa [annotLoop] using h
  | succ n ih =>
    simp only [annotLoop]
    by_cases he : s.queue.isEmpty
    · simpa [he] using h
    · simp only [he, ite_false]
      exact ih _ (BfsInv_annotStep accept web extractLinks s h)

/-- C1: the frontier is drained in breadth-first order.  The crawl loop's
fetch sequence equals the fetch sequence of the depth-annotated loop (links
found on a depth-`d` page are appended to the queue tail at depth `d + 1`
after the current target is dequeued), and the annotated fetch depths are
non-decreasing — so every target discovered at crawl depth `d` is dequeued
and fetched before any target discovered at depth `d + 1`.  On the fixture
page graph `A→{B,C}`, `B→{D}`, `C→{}`, a crawl starting at `A` visits
`A, B, C, D`. -/
theorem crawl_breadth_first_order :
    (∀ (accept : Url → Bool) (web : Web) (extractLinks : String → Url → List Url)
      (htmlDir pdfDir : String) (fuel : Nat) (start : Url) (visited0 : List Url) (fs0 : FS),
      fetchedUrls (crawlLoop accept web extractLinks htmlDir pdfDir fuel
          { queue := [start], visited := visited0, fs := fs0, trace := [] }).trace
        = (annotLoop accept web extractLinks fuel
            { queue := [(start, 0)], visited := visited0, fetches := [] }).fetches.map
            Prod.fst)
    ∧ (∀ (accept : Url → Bool) (web : Web) (extractLinks : String → Url → List Url)
      (fuel : Nat) (start : Url) (visited0 : List Url),
      List.Pairwise (fun x y => x ≤ y)
        ((annotLoop accept web extractLinks fuel
            { queue := [(start, 0)], visited := visited0, fetches := [] }).fetches.map
            Prod.snd))
    ∧ (scrape cfgFix webHtml linksBfs 5 10 [] []).map (fun st => fetchedUrls st.trace)
        = some [urlA, urlB, urlC, urlD] := by
  refine ⟨?_, ?_, ?_⟩
  · intro accept web extractLinks htmlDir pdfDir fuel start visited0 fs0
    exact (crawlLoop_erases_annot accept web extractLinks htmlDir pdfDir fuel
      ⟨[(start, 0)], visited0, []⟩ ⟨[start], visited0, fs0, []⟩ (by simp) rfl rfl).2.2.symm
  · intro accept web extractLinks fuel start visited0
    refine (BfsInv_annotLoop accept web extractLinks fuel _ ?_).2.2.1
    refine ⟨by simp, ?_, by simp [BfsInv], by simp⟩
    intro x hx y hy
    simp only [List.map_cons, List.map_nil, List.mem_singleton] at hx hy
    omega
  · rfl

/-! ## Case characterisation of one crawl step -/

/-- Exhaustive characterisation of `crawlStep`: empty queue, visited skip,
raised fetch, non-200 response, PDF already present, PDF stored, or HTML
page. -/
theorem crawlStep_cases (accept : Url → Bool) (web : Web)
    (extractLinks : String → Url → List Url) (htmlDir pdfDir : String) (s : CrawlState) :
    (s.queue = [] ∧ crawlStep accept web extractLinks htmlDir pdfDir s = s)
    ∨ (∃ u rest, s.queue = u :: rest ∧ u ∈ s.visited ∧
        crawlStep accept web extractLinks htmlDir pdfDir s = { s with queue := rest })
    ∨ (∃ u rest, s.queue = u :: rest ∧ u ∉ s.visited ∧ web u = FetchResult.exn ∧
        crawlStep accept web extractLinks htmlDir pdfDir s =
          { queue := rest, visited := u :: s.visited, fs := s.fs,
            trace := s.trace ++ [Event.fetch u, Event.logFailure u] })
    ∨ (∃ u rest status ct text content, s.queue = u :: rest ∧ u ∉ s.visited ∧
        web u = FetchResult.resp status ct text content ∧ status ≠ 200 ∧
        crawlStep accept web extractLinks htmlDir pdfDir s =
          { queue := rest, visited := u :: s.visited, fs := s.fs,
            trace := s.trace ++ [Event.fetch u, Event.logNon200 u status] })
    ∨ (∃ u rest ct text content, s.queue = u :: rest ∧ u ∉ s.visited ∧
        web u = FetchResult.resp 200 ct text content ∧ isPdfResponse ct u = true ∧
        fsExists s.fs (pdfTargetPath pdfDir u) = true ∧
        crawlStep accept web extractLinks htmlDir pdfDir s =
          { queue := rest, visited := u :: s.visited, fs := s.fs,
            trace := s.trace ++ [Event.fetch u, Event.sleep] })
    ∨ (∃ u rest ct text content, s.queue = u :: rest ∧ u ∉ s.visited ∧
        web u = FetchResult.resp 200 ct text content ∧ isPdfResponse ct u = true ∧
        fsExists s.fs (pdfTargetPath pdfDir u) = false ∧
        crawlStep accept web extractLinks htmlDir pdfDir s =
          { queue := rest, visited := u :: s.visited,
            fs := fsWrite s.fs (pdfTargetPath pdfDir u) (FileData.bytes content),
            trace := s.trace ++ [Event.fetch u,
              Event.writePdf (pdfTargetPath pdfDir u) content, Event.sleep] })
    ∨ (∃ u rest ct text content, s.queue = u :: rest ∧ u ∉ s.visited ∧
        web u = FetchResult.resp 200 ct text content ∧ isPdfResponse ct u = false ∧
        crawlStep accept web extractLinks htmlDir pdfDir s =
          { queue := rest ++ eligibleLinks accept (u :: s.visited) (extractLinks text u),
            visited := u :: s.visited,
            fs := fsWrite s.fs (pathJoin htmlDir (htmlRelPath u)) (FileData.text text),
            trace := s.trace ++ [Event.fetch u,
                Event.writeHtml (pathJoin htmlDir (htmlRelPath u)) text]
              ++ (eligibleLinks accept (u :: s.visited) (extractLinks text u)).map
                  Event.enqueue
              ++ [Event.sleep] }) := by
  obtain ⟨q, v, fs, tr⟩ := s
  cases q with
  | nil => exact Or.inl ⟨rfl, rfl⟩
  | cons u rest =>
    by_cases hmem : u ∈ v
    · refine Or.inr (Or.inl ⟨u, rest, rfl, hmem, ?_⟩)
      simp [crawlStep, hmem]
    · cases hw : web u with
      | exn =>
        refine Or.inr (Or.inr (Or.inl ⟨u, rest, rfl, hmem, hw, ?_⟩))
        simp [crawlStep, hmem, hw]
      | resp status ct text content =>
        by_cases hst : status = 200
        · subst hst
          by_cases hpdf : isPdfResponse ct u = true
          · by_cases hex : fsExists fs (pdfTargetPath pdfDir u) = true
            · refine Or.inr (Or.inr (Or.inr (Or.inr (Or.inl
                ⟨u, rest, ct, text, content, rfl, hmem, hw, hpdf, hex, ?_⟩))))
              simp [crawlStep, hmem, hw, hpdf, hex]
            · refine Or.inr (Or.inr (Or.inr (Or.inr (Or.inr (Or.inl
                ⟨u, rest, ct, text, content, rfl, hmem, hw, hpdf,
                  Bool.not_eq_true _ ▸ hex, ?_⟩)))))
              simp [crawlStep, hmem, hw, hpdf, hex]
          · refine Or.inr (Or.inr (Or.inr (Or.inr (Or.inr (Or.inr
              ⟨u, rest, ct, text, content, rfl, hmem, hw,
                Bool.not_eq_true _ ▸ hpdf, ?_⟩)))))
            simp [crawlStep, hmem, hw, hpdf, List.append_assoc]
        · refine Or.inr (Or.inr (Or.inr (Or.inl
            ⟨u, rest, status, ct, text, content, rfl, hmem, hw, hst, ?_⟩)))
          simp [crawlStep, hmem, hw, hst]

/-! ## C2: frontier deduplication -/


theorem FetchOk_push (tr : List Event) (v : List Url) (u : Url) (evs : List Event)
    (h : FetchOk tr v) (hu : u ∉ v) (hev : fetchedUrls evs = []) :
    FetchOk (tr ++ Event.fetch u :: evs) (u :: v) := by
  obtain ⟨hnd, hsub⟩ := h
  have hfe : fetchedUrls (tr ++ Event.fetch u :: evs) = fetchedUrls tr ++ [u] := by
    rw [fetchedUrls_append, fetchedUrls_fetch, hev]
  constructor
  · rw [hfe, List.nodup_append]
    refine ⟨hnd, List.nodup_singleton u, ?_⟩
    intro x hx
    simp only [List.mem_singleton]
    intro hxu
    exact hu (hxu ▸ hsub x hx)
  · intro x hx
    rw [hfe] at hx
    rcases List.mem_append.1 hx with hx | hx
    · exact List.mem_cons_of_mem _ (hsub x hx)
    · simp only [List.mem_singleton] at hx
      exact hx ▸ List.mem_cons_self _ _

/-- One crawl step preserves the fetch-trace invariant. -/
theorem FetchOk_crawlStep (accept : Url → Bool) (web : Web)
    (extractLinks : String → Url → List Url) (htmlDir pdfDir : String) (s : CrawlState)
    (h : FetchOk s.trace s.visited) :
    FetchOk (crawlStep accept web extractLinks htmlDir pdfDir s).trace
      (crawlStep accept web extractLinks htmlDir pdfDir s).visited := by
  rcases crawlStep_cases accept web extractLinks htmlDir pdfDir s with
    ⟨_, hs⟩ | ⟨u, rest, hq, hmem, hs⟩ | ⟨u, rest, hq, hmem, hw, hs⟩ |
    ⟨u, rest, status, ct, tx, co, hq, hmem, hw, hst, hs⟩ |
    ⟨u, rest, ct, tx, co, hq, hmem, hw, hpdf, hex, hs⟩ |
    ⟨u, rest, ct, tx, co, hq, hmem, hw, hpdf, hex, hs⟩ |
    ⟨u, rest, ct, tx, co, hq, hmem, hw, hpdf, hs⟩
  · rw [hs]
    exact h
  · rw [hs]
    exact h
  · rw [hs]
    exact FetchOk_push s.trace s.visited u [Event.logFailure u] h hmem rfl
  · rw [hs]
    exact FetchOk_push s.trace s.visited u [Event.logNon200 u status] h hmem rfl
  · rw [hs]
    exact FetchOk_push s.trace s.visited u [Event.sleep] h hmem rfl
  · rw [hs]
    exact FetchOk_push s.trace s.visited u
      [Event.writePdf (pdfTargetPath pdfDir u) co, Event.sleep] h hmem rfl
  · rw [hs]
    have hev : fetchedUrls ([Event.writeHtml (pathJoin htmlDir (htmlRelPath u)) tx]
        ++ (eligibleLinks accept (u :: s.visited) (extractLinks tx u)).map Event.enqueue
        ++ [Event.sleep]) = [] := by
      rw [fetchedUrls_append, fetchedUrls_append, fetchedUrls_map_enqueue]
      rfl
    have := FetchOk_push s.trace s.visited u
      ([Event.writeHtml (pathJoin htmlDir (htmlRelPath u)) tx]
        ++ (eligibleLinks accept (u :: s.visited) (extractLinks tx u)).map Event.enqueue
        ++ [Event.sleep]) h hmem hev
    simpa using this

/-- The visited-set only grows across one crawl step. -/
theorem crawlStep_visited_mono (accept : Url → Bool) (web : Web)
    (extractLinks : String → Url → List Url) (htmlDir pdfDir : String) (s : CrawlState) :
    s.visited ⊆ (crawlStep accept web extractLinks htmlDir pdfDir s).visited := by
  rcases crawlStep_cases accept web extractLinks htmlDir pdfDir s with
    ⟨_, hs⟩ | ⟨u, rest, hq, hmem, hs⟩ | ⟨u, rest, hq, hmem, hw, hs⟩ |
    ⟨u, rest, status, ct, tx, co, hq, hmem, hw, hst, hs⟩ |
    ⟨u, rest, ct, tx, co, hq, hmem, hw, hpdf, hex, hs⟩ |
    ⟨u, rest, ct, tx, co, hq, hmem, hw, hpdf, hex, hs⟩ |
    ⟨u, rest, ct, tx, co, hq, hmem, hw, hpdf, hs⟩ <;>
  rw [hs] <;>
  first
    | exact fun x hx => hx
    | exact fun x hx => List.mem_cons_of_mem _ hx

/-- The visited-set only grows across the crawl loop. -/
theorem crawlLoop_visited_mono (accept : Url → Bool) (web : Web)
    (extractLinks : String → Url → List Url) (htmlDir pdfDir : String) (fuel : Nat)
    (s : CrawlState) :
    s.visited ⊆ (crawlLoop accept web extractLinks htmlDir pdfDir fuel s).visited := by
  induction fuel generalizing s with
  | zero => exact fun x hx => hx
  | succ n ih =>
    simp only [crawlLoop]
    by_cases he : s.queue.isEmpty
    · simp only [he, ite_true]
      exact fun x hx => hx
    · simp only [he, ite_false]
      exact fun x hx =>
        ih _ (crawlStep_visited_mono accept web extractLinks htmlDir pdfDir s hx)

/-- The crawl loop preserves the fetch-trace invariant. -/
theorem FetchOk_crawlLoop (accept : Url → Bool) (web : Web)
    (extractLinks : String → Url → List Url) (htmlDir pdfDir : String) (fuel : Nat)
    (s : CrawlState) (h : FetchOk s.trace s.visited) :
    FetchOk (crawlLoop accept web extractLinks htmlDir pdfDir fuel s).trace
      (crawlLoop accept web extractLinks htmlDir pdfDir fuel s).visited := by
  induction fuel generalizing s with
  | zero => exact h
  | succ n ih =>
    simp only [crawlLoop]
    by_cases he : s.queue.isEmpty
    · simp only [he, ite_true]
      exact h
    · simp only [he, ite_false]
      exact ih _ (FetchOk_crawlStep accept web extractLinks htmlDir pdfDir s h)

/-- C2 counterexample: on the fixture graph `A→{B,C}`, `B→{D}`, `C→{D}`, the
target `D` enters the pending queue twice in one crawl run (the enqueue guard
at src/scraper.py line 127 checks only the visited-set, not queue
membership), refuting the claim that no target ever enters the queue twice. -/
theorem frontier_dedup_counterexample :
    (scrape cfgFix webHtml linksDiamond 5 10 [] []).map
      (fun st => (enqueuedUrls st.trace).count urlD) = some 2 := by
  decide

/-- C2 amended: the enqueue step adds a discovered target only if it is not
already visited — queue membership is not checked, so a target can enter the
pending queue more than once; duplicate entries are discarded at dequeue time,
so every target is fetched at most once per run, and the visited-set only
grows for the lifetime of one crawl run.  On the fixture graph `A→{B,C}`,
`B→{D}`, `C→{D}`, the target `D` is enqueued twice yet fetched once. -/
theorem frontier_dedup_amended :
    (∀ (accept : Url → Bool) (web : Web) (extractLinks : String → Url → List Url)
      (htmlDir pdfDir : String) (fuel : Nat) (start : Url) (visited0 : List Url) (fs0 : FS),
      (fetchedUrls (crawlLoop accept web extractLinks htmlDir pdfDir fuel
          { queue := [start], visited := visited0, fs := fs0, trace := [] }).trace).Nodup)
    ∧ (∀ (accept : Url → Bool) (web : Web) (extractLinks : String → Url → List Url)
      (htmlDir pdfDir : String) (fuel : Nat) (s : CrawlState),
      s.visited ⊆ (crawlLoop accept web extractLinks htmlDir pdfDir fuel s).visited)
    ∧ (scrape cfgFix webHtml linksDiamond 5 10 [] []).map
        (fun st => ((enqueuedUrls st.trace).count urlD, (fetchedUrls st.trace).count urlD))
        = some (2, 1) := by
  refine ⟨?_, ?_, ?_⟩
  · intro accept web extractLinks htmlDir pdfDir fuel start visited0 fs0
    exact (FetchOk_crawlLoop accept web extractLinks htmlDir pdfDir fuel
      { queue := [start], visited := visited0, fs := fs0, trace := [] }
      ⟨List.nodup_nil, by simp [fetchedUrls_nil]⟩).1
  · exact fun accept web extractLinks htmlDir pdfDir fuel s =>
      crawlLoop_visited_mono accept web extractLinks htmlDir pdfDir fuel s
  · decide

/-! ## C3: fragment normalisation -/

theorem eligibleLinks_fragment (accept : Url → Bool) (visited : List Url)
    (links : List Url) (u : Url) (h : u ∈ eligibleLinks accept visited links) :
    u.fragment = "" := by
  simp only [eligibleLinks, List.mem_filter, List.mem_map] at h
  obtain ⟨⟨y, _, rfl⟩, _⟩ := h
  rfl


/-- Popping a fragment-free head and appending fragment-free links preserves
the fragment invariant. -/
theorem FragOk_push (u : Url) (rest : List Url) (tr : List Event)
    (ext : List Url) (evs : List Event)
    (h : FragOk (u :: rest) tr) (hext : ∀ x ∈ ext, x.fragment = "")
    (hev : fetchedUrls evs = []) :
    FragOk (rest ++ ext) (tr ++ Event.fetch u :: evs) := by
  obtain ⟨hq, htr⟩ := h
  constructor
  · intro x hx
    rcases List.mem_append.1 hx with hx | hx
    · exact hq x (List.mem_cons_of_mem _ hx)
    · exact hext x hx
  · intro x hx
    rw [fetchedUrls_append, fetchedUrls_fetch, hev] at hx
    rcases List.mem_append.1 hx with hx | hx
    · exact htr x hx
    · simp only [List.mem_singleton] at hx
      exact hx ▸ hq u (List.mem_cons_self _ _)

/-- One crawl step preserves the fragment invariant. -/
theorem FragOk_crawlStep (accept : Url → Bool) (web : Web)
    (extractLinks : String → Url → List Url) (htmlDir pdfDir : String) (s : CrawlState)
    (h : FragOk s.queue s.trace) :
    FragOk (crawlStep accept web extractLinks htmlDir pdfDir s).queue
      (crawlStep accept web extractLinks htmlDir pdfDir s).trace := by
  rcases crawlStep_cases accept web extractLinks htmlDir pdfDir s with
    ⟨_, hs⟩ | ⟨u, rest, hqe, hmem, hs⟩ | ⟨u, rest, hqe, hmem, hw, hs⟩ |
    ⟨u, rest, status, ct, tx, co, hqe, hmem, hw, hst, hs⟩ |
    ⟨u, rest, ct, tx, co, hqe, hmem, hw, hpdf, hex, hs⟩ |
    ⟨u, rest, ct, tx, co, hqe, hmem, hw, hpdf, hex, hs⟩ |
    ⟨u, rest, ct, tx, co, hqe, hmem, hw, hpdf, hs⟩
  · rw [hs]
    exact h
  · rw [hs]
    rw [hqe] at h
    exact ⟨fun x hx => h.1 x (List.mem_cons_of_mem _ hx), h.2⟩
  · rw [hs]
    rw [hqe] at h
    simpa using FragOk_push u rest s.trace [] [Event.logFailure u] h (by simp) rfl
  · rw [hs]
    rw [hqe] at h
    simpa using FragOk_push u rest s.trace [] [Event.logNon200 u status] h (by simp) rfl
  · rw [hs]
    rw [hqe] at h
    simpa using FragOk_push u rest s.trace [] [Event.sleep] h (by simp) rfl
  · rw [hs]
    rw [hqe] at h
    simpa using FragOk_push u rest s.trace []
      [Event.writePdf (pdfTargetPath pdfDir u) co, Event.sleep] h (by simp) rfl
  · rw [hs]
    rw [hqe] at h
    have := FragOk_push u rest s.trace
      (eligibleLinks accept (u :: s.visited) (extractLinks tx u))
      ([Event.writeHtml (pathJoin htmlDir (htmlRelPath u)) tx]
        ++ (eligibleLinks accept (u :: s.visited) (extractLinks tx u)).map Event.enqueue
        ++ [Event.sleep]) h
      (fun x hx => eligibleLinks_fragment _ _ _ x hx)
      (by rw [fetchedUrls_append, fetchedUrls_append, fetchedUrls_map_enqueue]; rfl)
    simpa using this

/-- The crawl loop preserves the fragment invariant. -/
theorem FragOk_crawlLoop (accept : Url → Bool) (web : Web)
    (extractLinks : String → Url → List Url) (htmlDir pdfDir : String) (fuel : Nat)
    (s : CrawlState) (h : FragOk s.queue s.trace) :
    FragOk (crawlLoop accept web extractLinks htmlDir pdfDir fuel s).queue
      (crawlLoop accept web extractLinks htmlDir pdfDir fuel s).trace := by
  induction fuel generalizing s with
  | zero => exact h
  | succ n ih =>
    simp only [crawlLoop]
    by_cases he : s.queue.isEmpty
    · simp only [he, ite_true]
      exact h
    · simp only [he, ite_false]
      exact ih _ (FragOk_crawlStep accept web extractLinks htmlDir pdfDir s h)

theorem defrag_inj_of_fragment_eq (u v : Url) (hu : u.fragment = "")
    (hv : v.fragment = "") (h : defrag u = defrag v) : u = v := by
  obtain ⟨s1, n1, p1, q1, f1⟩ := u
  obtain ⟨s2, n2, p2, q2, f2⟩ := v
  simp only [defrag, Url.mk.injEq] at h ⊢
  simp only at hu hv
  exact ⟨h.1, h.2.1, h.2.2.1, h.2.2.2.1, hu.trans hv.symm⟩

/-- C3 counterexample: with start URL `https://x/y#f` whose page links to
`https://x/y#g`, the run fetches both `https://x/y#f` and `https://x/y` — two
URLs differing only in their fragment — because the dequeue-time membership
test (src/scraper.py line 75) does not strip the fragment of the start URL.
This refutes the claim that the fragment is stripped before every membership
test and that such a target is fetched at most once per run. -/
theorem fragment_normalization_counterexample :
    (scrape cfgFrag webHtml linksFrag 5 10 [] []).map (fun st => fetchedUrls st.trace)
        = some [urlYf, urlY]
    ∧ urlYf ≠ urlY ∧ defrag urlYf = defrag urlY := by
  refine ⟨by decide, by decide, by decide⟩

/-- C3 amended: every URL discovered via an href is defragmented before the
visited-set membership test and before enqueueing, so when the start URL
itself carries no fragment every fetched URL is fragment-free, two fetched
URLs with equal defragmented forms are equal, and no URL is fetched twice —
any two URLs differing only by fragment are then the same target, fetched at
most once per run.  A start URL carrying a fragment is not normalised and can
make its target be fetched twice. -/
theorem fragment_normalization_amended (accept : Url → Bool) (web : Web)
    (extractLinks : String → Url → List Url) (htmlDir pdfDir : String) (fuel : Nat)
    (start : Url) (visited0 : List Url) (fs0 : FS) (final : CrawlState)
    (hstart : start.fragment = "")
    (hrun : crawlLoop accept web extractLinks htmlDir pdfDir fuel
        { queue := [start], visited := visited0, fs := fs0, trace := [] } = final) :
    (∀ u ∈ fetchedUrls final.trace, u.fragment = "")
    ∧ (∀ u ∈ fetchedUrls final.trace, ∀ v ∈ fetchedUrls final.trace,
        defrag u = defrag v → u = v)
    ∧ (fetchedUrls final.trace).Nodup := by
  have hfrag : FragOk final.queue final.trace := by
    rw [← hrun]
    refine FragOk_crawlLoop accept web extractLinks htmlDir pdfDir fuel _ ⟨?_, ?_⟩
    · intro x hx
      simp only [List.mem_singleton] at hx
      exact hx ▸ hstart
    · intro x hx
      simp [fetchedUrls_nil] at hx
  have hnodup : (fetchedUrls final.trace).Nodup := by
    rw [← hrun]
    exact (FetchOk_crawlLoop accept web extractLinks htmlDir pdfDir fuel
      { queue := [start], visited := visited0, fs := fs0, trace := [] }
      ⟨List.nodup_nil, by simp [fetchedUrls_nil]⟩).1
  refine ⟨hfrag.2, ?_, hnodup⟩
  intro u hu v hv hdf
  exact defrag_inj_of_fragment_eq u v (hfrag.2 u hu) (hfrag.2 v hv) hdf

/-- Witness for `fragment_normalization_amended` on the fixture crawl from
the fragment-free start `urlA`. -/
theorem fragment_normalization_amended_witness :
    urlA.fragment = ""
    ∧ ((∀ u ∈ fetchedUrls (crawlLoop (scrapeAccept "x") webHtml linksBfs "data/html"
          "data/pdfs" 10 { queue := [urlA], visited := [], fs := [], trace := [] }).trace,
        u.fragment = "")
      ∧ (∀ u ∈ fetchedUrls (crawlLoop (scrapeAccept "x") webHtml linksBfs "data/html"
          "data/pdfs" 10 { queue := [urlA], visited := [], fs := [], trace := [] }).trace,
        ∀ v ∈ fetchedUrls (crawlLoop (scrapeAccept "x") webHtml linksBfs "data/html"
          "data/pdfs" 10 { queue := [urlA], visited := [], fs := [], trace := [] }).trace,
        defrag u = defrag v → u = v)
      ∧ (fetchedUrls (crawlLoop (scrapeAccept "x") webHtml linksBfs "data/html"
          "data/pdfs" 10 { queue := [urlA], visited := [], fs := [], trace := [] }).trace).Nodup) :=
  ⟨rfl, fragment_normalization_amended (scrapeAccept "x") webHtml linksBfs "data/html"
    "data/pdfs" 10 urlA [] [] _ rfl rfl⟩

/-! ## C4: PDF files are never overwritten -/

theorem fsGet_cons (e : String × FileData) (t : FS) (p : String) :
    fsGet (e :: t) p = if e.1 = p then some e.2 else fsGet t p := rfl

theorem fsGet_filter_ne (fs : FS) (p q : String) (h : q ≠ p) :
    fsGet (fs.filter (fun e => e.1 ≠ p)) q = fsGet fs q := by
  induction fs with
  | nil => rfl
  | cons a t ih =>
    by_cases hap : a.1 = p
    · have h1 : (decide (a.1 ≠ p)) = false := by simp [hap]
      have haq : a.1 ≠ q := fun hq => h (hq ▸ hap)
      rw [List.filter_cons, h1]
      simp only [Bool.false_eq_true, if_false]
      rw [ih, fsGet_cons, if_neg haq]
    · have h1 : (decide (a.1 ≠ p)) = true := by simp [hap]
      rw [List.filter_cons, h1]
      simp only [if_true]
      rw [fsGet_cons, fsGet_cons]
      by_cases haq : a.1 = q
      · rw [if_pos haq, if_pos haq]
      · rw [if_neg haq, if_neg haq, ih]

theorem fsGet_write_ne (fs : FS) (p q : String) (d : FileData) (h : q ≠ p) :
    fsGet (fsWrite fs p d) q = fsGet fs q := by
  unfold fsWrite
  rw [fsGet_cons, if_neg (fun hq => h hq.symm)]
  exact fsGet_filter_ne fs p q h

theorem fsGet_write_self (fs : FS) (p : String) (d : FileData) :
    fsGet (fsWrite fs p d) p = some d := by
  unfold fsWrite
  rw [fsGet_cons, if_pos rfl]

theorem fsExists_of_get (fs : FS) (p : String) (c : FileData)
    (h : fsGet fs p = some c) : fsExists fs p = true := by
  unfold fsExists
  rw [h]
  rfl

/-- One crawl step leaves any existing file untouched unless it is the HTML
storage path of some target: PDF writes are guarded by an existence check,
and nothing else writes. -/
theorem crawlStep_fs_preserved (accept : Url → Bool) (web : Web)
    (extractLinks : String → Url → List Url) (htmlDir pdfDir : String) (s : CrawlState)
    (p : String) (c : FileData) (hp : fsGet s.fs p = some c)
    (hhtml : ∀ u : Url, pathJoin htmlDir (htmlRelPath u) ≠ p) :
    fsGet (crawlStep accept web extractLinks htmlDir pdfDir s).fs p = some c := by
  rcases crawlStep_cases accept web extractLinks htmlDir pdfDir s with
    ⟨_, hs⟩ | ⟨u, rest, hqe, hmem, hs⟩ | ⟨u, rest, hqe, hmem, hw, hs⟩ |
    ⟨u, rest, status, ct, tx, co, hqe, hmem, hw, hst, hs⟩ |
    ⟨u, rest, ct, tx, co, hqe, hmem, hw, hpdf, hex, hs⟩ |
    ⟨u, rest, ct, tx, co, hqe, hmem, hw, hpdf, hex, hs⟩ |
    ⟨u, rest, ct, tx, co, hqe, hmem, hw, hpdf, hs⟩ <;> rw [hs]
  · exact hp
  · exact hp
  · exact hp
  · exact hp
  · exact hp
  · by_cases hpp : p = pdfTargetPath pdfDir u
    · exact absurd (fsExists_of_get s.fs _ c (hpp ▸ hp)) (by rw [hex]; simp)
    · exact (fsGet_write_ne s.fs _ p _ hpp).trans hp
  · exact (fsGet_write_ne s.fs _ p _ (fun hq => hhtml u hq.symm)).trans hp

/-- The crawl loop leaves any existing file untouched unless it is the HTML
storage path of some target. -/
theorem crawlLoop_fs_preserved (accept : Url → Bool) (web : Web)
    (extractLinks : String → Url → List Url) (htmlDir pdfDir : String) (fuel : Nat)
    (s : CrawlState) (p : String) (c : FileData) (hp : fsGet s.fs p = some c)
    (hhtml : ∀ u : Url, pathJoin htmlDir (htmlRelPath u) ≠ p) :
    fsGet (crawlLoop accept web extractLinks htmlDir pdfDir fuel s).fs p = some c := by
  induction fuel generalizing s with
  | zero => exact hp
  | succ n ih =>
    simp only [crawlLoop]
    by_cases he : s.queue.isEmpty
    · simp only [he, ite_true]
      exact hp
    · simp only [he, ite_false]
      exact ih _ (crawlStep_fs_preserved accept web extractLinks htmlDir pdfDir s p c
        hp hhtml)


theorem pathJoin_root (out sub : String) (hhead : sub.toList.head? ≠ some '/') :
    pathJoin out sub = joinRoot out ++ sub := by
  unfold pathJoin joinRoot
  rw [if_neg hhead]
  by_cases h : out = "" ∨ out.toList.getLast? = some '/'
  · rw [if_pos h, if_pos h]
  · rw [if_neg h, if_neg h]

theorem head_dropWhile_slash (l : List Char) (x : Char)
    (hx : (l.dropWhile (fun c => c = '/')).head? = some x) : x ≠ '/' := by
  induction l with
  | nil => simp [List.dropWhile] at hx
  | cons a t ih =>
    by_cases ha : a = '/'
    · rw [List.dropWhile_cons_of_pos (by simp [ha])] at hx
      exact ih hx
    · rw [List.dropWhile_cons_of_neg (by simp [ha])] at hx
      simp only [List.head?_cons, Option.some.injEq] at hx
      exact hx ▸ ha

theorem head_lstrip (s : String) (x : Char)
    (hx : (lstripSlash s).toList.head? = some x) : x ≠ '/' :=
  head_dropWhile_slash s.toList x hx

theorem htmlRelPath_head (u : Url) (x : Char)
    (hx : (htmlRelPath u).toList.head? = some x) : x ≠ '/' := by
  unfold htmlRelPath at hx
  by_cases hc : lstripSlash u.path = "" ∨ strEndsWith (lstripSlash u.path) "/"
  · rw [if_pos hc] at hx
    have happ : (lstripSlash u.path ++ "index.html").toList
        = (lstripSlash u.path).toList ++ "index.html".toList := rfl
    rw [happ] at hx
    cases hl : (lstripSlash u.path).toList with
    | nil =>
      rw [hl, List.nil_append] at hx
      have hi : "index.html".toList.head? = some 'i' := rfl
      rw [hi] at hx
      cases hx
      decide
    | cons a t =>
      rw [hl, List.head?_append_of_ne_nil _ (by simp)] at hx
      apply head_lstrip u.path x
      rw [hl]
      exact hx
  · rw [if_neg hc] at hx
    exact head_lstrip u.path x hx

theorem toList_append_str (a b : String) : (a ++ b).toList = a.toList ++ b.toList := rfl

theorem append_ne_empty_right (J s : String) (h : s.toList ≠ []) : J ++ s ≠ "" := by
  intro he
  apply h
  have hl := congrArg String.toList he
  rw [toList_append_str] at hl
  exact (List.append_eq_nil.1 hl).2

theorem getLast_append_str (J s : String) (h : s.toList ≠ []) :
    (J ++ s).toList.getLast? = s.toList.getLast? := by
  rw [toList_append_str]
  exact List.getLast?_append_of_ne_nil _ h

/-- The HTML storage path of any target never lies under the `pdfs` root. -/
theorem html_path_ne (out p : String) (u : Url)
    (hpre : (pathJoin out "pdfs" ++ "/").toList <+: p.toList) :
    pathJoin (pathJoin out "html") (htmlRelPath u) ≠ p := by
  intro heq
  have h1 : pathJoin out "html" = joinRoot out ++ "html" :=
    pathJoin_root out "html" (by decide)
  have h2 : pathJoin out "pdfs" = joinRoot out ++ "pdfs" :=
    pathJoin_root out "pdfs" (by decide)
  have hne : pathJoin (joinRoot out ++ "html") (htmlRelPath u)
      = ((joinRoot out ++ "html") ++ "/") ++ htmlRelPath u := by
    unfold pathJoin
    rw [if_neg (fun h => htmlRelPath_head u '/' h rfl), if_neg ?hcond]
    case hcond =>
      rintro (hemp | hlast)
      · exact append_ne_empty_right (joinRoot out) "html" (by decide) hemp
      · rw [getLast_append_str (joinRoot out) "html" (by decide)] at hlast
        cases hlast
  rw [h1, hne] at heq
  rw [h2] at hpre
  rw [← heq] at hpre
  have hl : ((joinRoot out ++ "pdfs") ++ "/").toList
      = (joinRoot out).toList ++ "pdfs/".toList := by
    rw [toList_append_str, toList_append_str]
    rw [List.append_assoc]
    rfl
  have hr : ((((joinRoot out ++ "html") ++ "/") ++ htmlRelPath u)).toList
      = (joinRoot out).toList ++ ("html/".toList ++ (htmlRelPath u).toList) := by
    rw [toList_append_str, toList_append_str, toList_append_str]
    rw [List.append_assoc, List.append_assoc]
    rfl
  rw [hl, hr] at hpre
  have := (List.prefix_append_right_inj (joinRoot out).toList).1 hpre
  have hcontr : ('p' : Char) = 'h' := by
    have hcons : "html/".toList ++ (htmlRelPath u).toList
        = 'h' :: ("tml/".toList ++ (htmlRelPath u).toList) := rfl
    rw [hcons] at this
    have hp : "pdfs/".toList = 'p' :: "dfs/".toList := rfl
    rw [hp] at this
    exact (List.cons_prefix_cons.1 this).1
  cases hcontr

/-- The last-scrape timestamp path never lies under the `pdfs` root. -/
theorem ts_path_ne (out p : String)
    (hpre : (pathJoin out "pdfs" ++ "/").toList <+: p.toList) :
    pathJoin out "last_scrape.txt" ≠ p := by
  intro heq
  have h2 : pathJoin out "pdfs" = joinRoot out ++ "pdfs" :=
    pathJoin_root out "pdfs" (by decide)
  have h3 : pathJoin out "last_scrape.txt" = joinRoot out ++ "last_scrape.txt" :=
    pathJoin_root out "last_scrape.txt" (by decide)
  rw [h2] at hpre
  rw [h3] at heq
  rw [← heq] at hpre
  have hl : ((joinRoot out ++ "pdfs") ++ "/").toList
      = (joinRoot out).toList ++ "pdfs/".toList := by
    rw [toList_append_str, toList_append_str]
    rw [List.append_assoc]
    rfl
  have hr : (joinRoot out ++ "last_scrape.txt").toList
      = (joinRoot out).toList ++ "last_scrape.txt".toList := rfl
  rw [hl, hr] at hpre
  have := (List.prefix_append_right_inj (joinRoot out).toList).1 hpre
  revert this
  decide

/-- C4: existing PDF files are never overwritten.  Across a whole
`scrape` run, any file already present under the `pdfs` root keeps its exact
contents (the PDF branch writes only when `os.path.exists` is false, HTML and
timestamp writes never target the `pdfs` root); and when no file exists at
the sanitized target path, the PDF branch of one crawl step stores the
response body there — so re-crawls of an unchanged PDF are idempotent with
respect to the stored file. -/
theorem pdf_no_overwrite :
    (∀ (cfg : ScrapeCfg) (web : Web) (extractLinks : String → Url → List Url)
      (now : Int) (fuel : Nat) (visited0 : List Url) (fs0 : FS) (final : CrawlState)
      (p : String) (c : FileData),
      scrape cfg web extractLinks now fuel visited0 fs0 = some final →
      (pdfDirOf cfg ++ "/").toList <+: p.toList →
      fsGet fs0 p = some c → fsGet final.fs p = some c)
    ∧ (∀ (accept : Url → Bool) (web : Web) (extractLinks : String → Url → List Url)
      (htmlDir pdfDir : String) (s : CrawlState) (u : Url) (rest : List Url)
      (ct text : String) (co : List Nat),
      s.queue = u :: rest → u ∉ s.visited →
      web u = FetchResult.resp 200 ct text co → isPdfResponse ct u = true →
      fsExists s.fs (pdfTargetPath pdfDir u) = false →
      fsGet (crawlStep accept web extractLinks htmlDir pdfDir s).fs
        (pdfTargetPath pdfDir u) = some (FileData.bytes co))
    ∧ (scrape cfgFix webPdf linksPdf 5 10 []
        [("data/pdfs/doc.pdf", FileData.bytes [9])]).map
        (fun st => fsGet st.fs "data/pdfs/doc.pdf") = some (some (FileData.bytes [9]))
    ∧ (scrape cfgFix webPdf linksPdf 5 10 [] []).map
        (fun st => fsGet st.fs "data/pdfs/doc.pdf") = some (some (FileData.bytes [1])) := by
  refine ⟨?_, ?_, by decide, by decide⟩
  · intro cfg web extractLinks now fuel visited0 fs0 final p c hrun hpre hp
    unfold scrape at hrun
    by_cases he : (crawlLoop (scrapeAccept cfg.startUrl.netloc) web extractLinks
        (htmlDirOf cfg) (pdfDirOf cfg) fuel
        { queue := [cfg.startUrl], visited := visited0, fs := fs0, trace := [] }).queue.isEmpty
    · simp only [he, ite_true, Option.some.injEq] at hrun
      rw [← hrun]
      simp only
      refine (fsGet_write_ne _ _ _ _ ?_).trans ?_
      · exact fun hq => ts_path_ne cfg.outputDir p hpre
          (show pathJoin cfg.outputDir "last_scrape.txt" = p from hq.symm)
      · exact crawlLoop_fs_preserved (scrapeAccept cfg.startUrl.netloc) web extractLinks
          (htmlDirOf cfg) (pdfDirOf cfg) fuel _ p c hp
          (fun u => html_path_ne cfg.outputDir p u hpre)
    · simp only [he, ite_false] at hrun
      cases hrun
  · intro accept web extractLinks htmlDir pdfDir s u rest ct text co hq hmem hw hpdf hex
    obtain ⟨sq, sv, sfs, str⟩ := s
    simp only at hq hmem hw hpdf hex
    subst hq
    simp [crawlStep, hmem, hw, hpdf, hex, fsGet_write_self]

/-- Witness for `pdf_no_overwrite`: the concrete two-PDF fixture run keeps
the pre-existing stored file byte-identical, and a fresh step stores the
response body. -/
theorem pdf_no_overwrite_witness :
    (∃ final, scrape cfgFix webPdf linksPdf 5 10 []
        [("data/pdfs/doc.pdf", FileData.bytes [9])] = some final
      ∧ fsGet final.fs "data/pdfs/doc.pdf" = some (FileData.bytes [9]))
    ∧ fsGet (crawlStep (scrapeAccept "x") webPdf linksPdf "data/html" "data/pdfs"
        { queue := [urlP1], visited := [], fs := [], trace := [] }).fs
        (pdfTargetPath "data/pdfs" urlP1) = some (FileData.bytes [1]) := by
  constructor
  · cases hrun : scrape cfgFix webPdf linksPdf 5 10 []
        [("data/pdfs/doc.pdf", FileData.bytes [9])] with
    | none => exact absurd hrun (by decide)
    | some final =>
      refine ⟨final, rfl, ?_⟩
      exact pdf_no_overwrite.1 cfgFix webPdf linksPdf 5 10 [] _ final
        "data/pdfs/doc.pdf" (FileData.bytes [9]) hrun (by decide) (by decide)
  · exact pdf_no_overwrite.2.1 (scrapeAccept "x") webPdf linksPdf "data/html" "data/pdfs"
      { queue := [urlP1], visited := [], fs := [], trace := [] } urlP1 [] "application/pdf"
      "" [1] rfl (by simp) rfl (by decide) rfl

/-! ## C5: the inter-request delay -/

/-- One crawl step preserves the equality between the number of sleeps and
the number of 200-answered fetches: the delay is applied after the PDF and
HTML branches and after nothing else. -/
theorem sleep_per_fetch_step (accept : Url → Bool) (web : Web)
    (extractLinks : String → Url → List Url) (htmlDir pdfDir : String) (s : CrawlState)
    (h : sleepCount s.trace = okFetchCount web s.trace) :
    sleepCount (crawlStep accept web extractLinks htmlDir pdfDir s).trace
      = okFetchCount web (crawlStep accept web extractLinks htmlDir pdfDir s).trace := by
  rcases crawlStep_cases accept web extractLinks htmlDir pdfDir s with
    ⟨_, hs⟩ | ⟨u, rest, hqe, hmem, hs⟩ | ⟨u, rest, hqe, hmem, hw, hs⟩ |
    ⟨u, rest, status, ct, tx, co, hqe, hmem, hw, hst, hs⟩ |
    ⟨u, rest, ct, tx, co, hqe, hmem, hw, hpdf, hex, hs⟩ |
    ⟨u, rest, ct, tx, co, hqe, hmem, hw, hpdf, hex, hs⟩ |
    ⟨u, rest, ct, tx, co, hqe, hmem, hw, hpdf, hs⟩ <;> rw [hs]
  · exact h
  · exact h
  · simp only [sleepCount_append, okFetchCount, fetchedUrls_append, fetchedUrls_fetch,
      fetchedUrls_logFailure, fetchedUrls_nil, List.countP_append, List.countP_cons,
      List.countP_nil, hw]
    simp only [okFetchCount] at h
    simpa [sleepCount] using h
  · simp only [sleepCount_append, okFetchCount, fetchedUrls_append, fetchedUrls_fetch,
      fetchedUrls_logNon200, fetchedUrls_nil, List.countP_append, List.countP_cons,
      List.countP_nil, hw]
    simp only [okFetchCount] at h
    have hb : (status == 200) = false := by simp [hst]
    simpa [sleepCount, hb] using h
  · simp only [sleepCount_append, okFetchCount, fetchedUrls_append, fetchedUrls_fetch,
      fetchedUrls_sleep, fetchedUrls_nil, List.countP_append, List.countP_cons,
      List.countP_nil, hw]
    simp only [okFetchCount] at h
    simpa [sleepCount] using h
  · simp only [sleepCount_append, okFetchCount, fetchedUrls_append, fetchedUrls_fetch,
      fetchedUrls_writePdf, fetchedUrls_sleep, fetchedUrls_nil, List.countP_append,
      List.countP_cons, List.countP_nil, hw]
    simp only [okFetchCount] at h
    simpa [sleepCount] using h
  · simp only [sleepCount_append, okFetchCount, fetchedUrls_append, fetchedUrls_fetch,
      fetchedUrls_writeHtml, fetchedUrls_map_enqueue, fetchedUrls_sleep, fetchedUrls_nil,
      List.countP_append, List.countP_cons, List.countP_nil, hw]
    simp only [okFetchCount] at h
    have hsl : List.countP ((fun e => e == Event.sleep) ∘ Event.enqueue)
        (eligibleLinks accept (u :: s.visited) (extractLinks tx u)) = 0 := by
      rw [List.countP_eq_zero]
      intro x hx
      simp
    simpa [sleepCount, sleepCount_append, hsl] using h

/-- The crawl loop preserves the sleeps-equal-successful-fetches equality. -/
theorem sleep_per_fetch_loop (accept : Url → Bool) (web : Web)
    (extractLinks : String → Url → List Url) (htmlDir pdfDir : String) (fuel : Nat)
    (s : CrawlState) (h : sleepCount s.trace = okFetchCount web s.trace) :
    sleepCount (crawlLoop accept web extractLinks htmlDir pdfDir fuel s).trace
      = okFetchCount web (crawlLoop accept web extractLinks htmlDir pdfDir fuel s).trace := by
  induction fuel generalizing s with
  | zero => exact h
  | succ n ih =>
    simp only [crawlLoop]
    by_cases he : s.queue.isEmpty
    · simp only [he, ite_true]
      exact h
    · simp only [he, ite_false]
      exact ih _ (sleep_per_fetch_step accept web extractLinks htmlDir pdfDir s h)

/-- C5 counterexample: when the very first fetch raises a network error, the
run's trace is `fetch A, logFailure A` — one fetch, zero sleeps — so no delay
is applied after a failed fetch, refuting the claim that the delay is applied
after every fetch regardless of branch. -/
theorem fetch_delay_counterexample :
    (scrape cfgFix webDown linksBfs 5 10 [] []).map
      (fun st => (st.trace, sleepCount st.trace, (fetchedUrls st.trace).length))
      = some ([Event.fetch urlA, Event.logFailure urlA], 0, 1) := by
  decide

/-- C5 amended: the fixed delay is applied exactly after every fetch that
returns a 200 response — once per PDF-branch and once per HTML-branch
iteration — while failed fetches (network error or non-200 status) proceed to
the next target with no delay: in every run the number of sleeps equals the
number of 200-answered fetches.  On a fixture where `B` fails, three fetches
produce two sleeps. -/
theorem fetch_delay_amended :
    (∀ (accept : Url → Bool) (web : Web) (extractLinks : String → Url → List Url)
      (htmlDir pdfDir : String) (fuel : Nat) (q0 v0 : List Url) (fs0 : FS),
      sleepCount (crawlLoop accept web extractLinks htmlDir pdfDir fuel
          { queue := q0, visited := v0, fs := fs0, trace := [] }).trace
        = okFetchCount web (crawlLoop accept web extractLinks htmlDir pdfDir fuel
          { queue := q0, visited := v0, fs := fs0, trace := [] }).trace)
    ∧ (scrape cfgFix webBFail linksBfs 5 10 [] []).map
        (fun st => (fetchedUrls st.trace, sleepCount st.trace))
        = some ([urlA, urlB, urlC], 2) := by
  refine ⟨?_, by decide⟩
  intro accept web extractLinks htmlDir pdfDir fuel q0 v0 fs0
  exact sleep_per_fetch_loop accept web extractLinks htmlDir pdfDir fuel
    { queue := q0, visited := v0, fs := fs0, trace := [] } rfl

/-! ## C7: the extraction post-pass -/

/-- C7: for every PDF found by the walk of the `pdfs` root, the pass computes
the mirrored `.txt` path under the `pdf_text` root and skips the PDF iff that
path exists with size greater than zero; otherwise it calls the text
extractor and writes its result (possibly empty) to the mirrored path.  On
the fixture walk, a first pass extracts both PDFs, and a second pass
re-extracts exactly the PDF whose first extraction was empty. -/
theorem extract_pending_spec :
    (∀ (pdfDir textDir : String) (extractor : String → String) (acc : ExtractResult)
      (root name : String),
      strEndsWith (pyLower name) ".pdf" = true →
      (fsExists acc.fs (txtTargetPath pdfDir textDir root name)
        && fsSizePos acc.fs (txtTargetPath pdfDir textDir root name)) = true →
      processPdfFile pdfDir textDir extractor acc (root, name) = acc)
    ∧ (∀ (pdfDir textDir : String) (extractor : String → String) (acc : ExtractResult)
      (root name : String),
      strEndsWith (pyLower name) ".pdf" = true →
      (fsExists acc.fs (txtTargetPath pdfDir textDir root name)
        && fsSizePos acc.fs (txtTargetPath pdfDir textDir root name)) = false →
      processPdfFile pdfDir textDir extractor acc (root, name) =
        { fs := fsWrite acc.fs (txtTargetPath pdfDir textDir root name)
            (FileData.text (extractor (pathJoin root name))),
          calls := acc.calls ++ [pathJoin root name] })
    ∧ (extract_all_pdfs "data/pdfs" "data/pdf_text" extractorFix walkFix []).calls
        = ["data/pdfs/a.pdf", "data/pdfs/b.pdf"]
    ∧ (extract_all_pdfs "data/pdfs" "data/pdf_text" extractorFix walkFix
        (extract_all_pdfs "data/pdfs" "data/pdf_text" extractorFix walkFix []).fs).calls
        = ["data/pdfs/a.pdf"]
    ∧ fsGet (extract_all_pdfs "data/pdfs" "data/pdf_text" extractorFix walkFix []).fs
        "data/pdf_text/b.txt" = some (FileData.text "hello") := by
  refine ⟨?_, ?_, by decide, by decide, by decide⟩
  · intro pdfDir textDir extractor acc root name h1 h2
    simp [processPdfFile, h1, h2]
  · intro pdfDir textDir extractor acc root name h1 h2
    simp [processPdfFile, h1, h2]

/-- Witness for `extract_pending_spec` on concrete skip and extract
instances. -/
theorem extract_pending_spec_witness :
    (strEndsWith (pyLower "b.pdf") ".pdf" = true
      ∧ (fsExists [("data/pdf_text/b.txt", FileData.text "hello")]
            (txtTargetPath "data/pdfs" "data/pdf_text" "data/pdfs" "b.pdf")
          && fsSizePos [("data/pdf_text/b.txt", FileData.text "hello")]
            (txtTargetPath "data/pdfs" "data/pdf_text" "data/pdfs" "b.pdf")) = true
      ∧ processPdfFile "data/pdfs" "data/pdf_text" extractorFix
          ⟨[("data/pdf_text/b.txt", FileData.text "hello")], []⟩ ("data/pdfs", "b.pdf")
          = ⟨[("data/pdf_text/b.txt", FileData.text "hello")], []⟩)
    ∧ processPdfFile "data/pdfs" "data/pdf_text" extractorFix ⟨[], []⟩ ("data/pdfs", "b.pdf")
        = { fs := fsWrite [] (txtTargetPath "data/pdfs" "data/pdf_text" "data/pdfs" "b.pdf")
              (FileData.text (extractorFix (pathJoin "data/pdfs" "b.pdf"))),
            calls := [] ++ [pathJoin "data/pdfs" "b.pdf"] } :=
  ⟨⟨by decide, by decide,
    extract_pending_spec.1 "data/pdfs" "data/pdf_text" extractorFix
      ⟨[("data/pdf_text/b.txt", FileData.text "hello")], []⟩ "data/pdfs" "b.pdf"
      (by decide) (by decide)⟩,
    extract_pending_spec.2.1 "data/pdfs" "data/pdf_text" extractorFix ⟨[], []⟩
      "data/pdfs" "b.pdf" (by decide) (by decide)⟩

/-! ## C8: the scope rule -/

theorem dropWhile_append_of_all (p : Char → Bool) (a b : List Char)
    (h : ∀ x ∈ a, p x = true) : (a ++ b).dropWhile p = b.dropWhile p := by
  induction a with
  | nil => rfl
  | cons x t ih =>
    rw [List.cons_append, List.dropWhile_cons_of_pos (h x (List.mem_cons_self _ _))]
    exact ih (fun y hy => h y (List.mem_cons_of_mem _ hy))

theorem categoryBaseDir_drop_filename (d f : String) (hslash : '/' ∉ f.toList)
    (hhtml : strEndsWith f ".html" = true) :
    categoryBaseDir (d ++ "/" ++ f) = d ++ "/" := by
  have htl : (d ++ "/" ++ f).toList = d.toList ++ '/' :: f.toList := by
    rw [toList_append_str, toList_append_str, List.append_assoc]
    rfl
  have hends : strEndsWith (d ++ "/" ++ f) ".html" = true := by
    unfold strEndsWith at hhtml ⊢
    rw [List.isSuffixOf_iff_suffix] at hhtml ⊢
    rw [htl]
    have hsf : f.toList <:+ d.toList ++ '/' :: f.toList := by
      have h2 : d.toList ++ '/' :: f.toList = (d.toList ++ ['/']) ++ f.toList := by
        rw [List.append_assoc]
        rfl
      rw [h2]
      exact List.suffix_append _ _
    exact hhtml.trans hsf
  unfold categoryBaseDir
  rw [if_pos hends]
  have hmem : '/' ∈ (d ++ "/" ++ f).toList := by
    rw [htl]
    exact List.mem_append.2 (Or.inr (List.mem_cons_self _ _))
  unfold rsplitHeadSlash
  rw [if_pos hmem, htl]
  rw [List.reverse_append, List.reverse_cons, List.append_assoc]
  rw [dropWhile_append_of_all _ f.toList.reverse _
    (fun x hx => by simp; exact fun he => hslash (he ▸ List.mem_reverse.1 hx))]
  rw [List.singleton_append, List.dropWhile_cons_of_neg (by simp)]
  rw [List.drop_one, List.tail_cons, List.reverse_reverse]
  rfl

/-- C8: the scope rule accepts a discovered link iff its scheme is http or
https, its domain equals the start URL's domain, and — in category mode — its
path starts with the category prefix; the prefix of a category whose starting
URL ends in a `.html` filename is that URL's path with the trailing filename
dropped.  With prefix `/map/card-services/`, a link under it is accepted and
a link under `/map/deskfile/` is not. -/
theorem scope_rule_spec :
    (∀ (dom dir : String) (u : Url),
      navAccept dom dir u = true ↔
        ((u.scheme = "http" ∨ u.scheme = "https") ∧ u.netloc = dom
          ∧ startsWithStr u.path dir = true))
    ∧ (∀ (dom : String) (u : Url),
      scrapeAccept dom u = true ↔ ((u.scheme = "http" ∨ u.scheme = "https") ∧ u.netloc = dom))
    ∧ (∀ (d f : String), ('/' ∉ f.toList) → strEndsWith f ".html" = true →
        categoryBaseDir (d ++ "/" ++ f) = d ++ "/")
    ∧ categoryBaseDir "/map/card-services/index.html" = "/map/card-services/"
    ∧ navAccept "x" "/map/card-services/"
        ⟨"https", "x", "/map/card-services/sub/page.html", "", ""⟩ = true
    ∧ navAccept "x" "/map/card-services/"
        ⟨"https", "x", "/map/deskfile/page.html", "", ""⟩ = false := by
  refine ⟨?_, ?_, categoryBaseDir_drop_filename, by decide, by decide, by decide⟩
  · intro dom dir u
    simp [navAccept, Bool.and_eq_true, Bool.or_eq_true, beq_iff_eq, and_assoc]
  · intro dom u
    simp [scrapeAccept, Bool.and_eq_true, Bool.or_eq_true, beq_iff_eq]

/-- Witness for `scope_rule_spec` at concrete links and a concrete category
start path. -/
theorem scope_rule_spec_witness :
    (navAccept "x" "/map/card-services/"
        ⟨"https", "x", "/map/card-services/sub/page.html", "", ""⟩ = true ↔
      ((("https" : String) = "http" ∨ ("https" : String) = "https")
        ∧ ("x" : String) = "x"
        ∧ startsWithStr "/map/card-services/sub/page.html" "/map/card-services/" = true))
    ∧ ('/' ∉ "index.html".toList)
    ∧ strEndsWith "index.html" ".html" = true
    ∧ categoryBaseDir ("/map/card-services" ++ "/" ++ "index.html")
        = "/map/card-services" ++ "/" :=
  ⟨scope_rule_spec.1 "x" "/map/card-services/"
      ⟨"https", "x", "/map/card-services/sub/page.html", "", ""⟩,
    by decide, by decide,
    scope_rule_spec.2.2.1 "/map/card-services" "index.html" (by decide) (by decide)⟩

/-! ## C9: exception behaviour of the crawler cores -/

/-- C9 counterexample: a network error on the category-scoped scrape's
initial navigation-page fetch propagates an exception across the interface
boundary (`requests.get` / `raise_for_status` at src/nav_scraper.py lines
50-51 are not wrapped in a `try`), refuting the claim that the crawler core
operations never propagate an exception for a fetch failure. -/
theorem crawler_no_exception_counterexample :
    navScrape cfgFix webDown navHrefsFix linksBfs (fun _ => "") [] 5 10 []
        = Except.error ()
    ∧ navScrape cfgFix (fun _ => FetchResult.resp 500 "" "" []) navHrefsFix linksBfs
        (fun _ => "") [] 5 10 [] = Except.error () := by
  exact ⟨rfl, rfl⟩

/-- C9 amended: within the per-target crawl loops (full-site scrape and
per-category crawl) a fetch failure is logged and the target abandoned for
the run — the loop continues to the next target, nothing is re-queued, no
target is ever fetched twice; but the category-scoped scrape's initial
navigation-page fetch is not guarded, so a network error or error status
there propagates an exception to the caller. -/
theorem crawler_no_exception_amended :
    (∀ (accept : Url → Bool) (web : Web) (extractLinks : String → Url → List Url)
      (htmlDir pdfDir : String) (s : CrawlState) (u : Url) (rest : List Url),
      s.queue = u :: rest → u ∉ s.visited → web u = FetchResult.exn →
      crawlStep accept web extractLinks htmlDir pdfDir s =
        { queue := rest, visited := u :: s.visited, fs := s.fs,
          trace := s.trace ++ [Event.fetch u, Event.logFailure u] })
    ∧ (∀ (accept : Url → Bool) (web : Web) (extractLinks : String → Url → List Url)
      (htmlDir pdfDir : String) (s : CrawlState) (u : Url) (rest : List Url)
      (status : Nat) (ct text : String) (co : List Nat),
      s.queue = u :: rest → u ∉ s.visited →
      web u = FetchResult.resp status ct text co → status ≠ 200 →
      crawlStep accept web extractLinks htmlDir pdfDir s =
        { queue := rest, visited := u :: s.visited, fs := s.fs,
          trace := s.trace ++ [Event.fetch u, Event.logNon200 u status] })
    ∧ (∀ (accept : Url → Bool) (web : Web) (extractLinks : String → Url → List Url)
      (htmlDir pdfDir : String) (fuel : Nat) (start : Url) (visited0 : List Url) (fs0 : FS),
      (fetchedUrls (crawlLoop accept web extractLinks htmlDir pdfDir fuel
          { queue := [start], visited := visited0, fs := fs0, trace := [] }).trace).Nodup)
    ∧ (scrape cfgFix webBFail linksBfs 5 10 [] []).map (fun st => fetchedUrls st.trace)
        = some [urlA, urlB, urlC] := by
  refine ⟨?_, ?_, ?_, by decide⟩
  · intro accept web extractLinks htmlDir pdfDir s u rest hq hmem hw
    obtain ⟨sq, sv, sfs, str⟩ := s
    simp only at hq hmem hw
    subst hq
    simp [crawlStep, hmem, hw]
  · intro accept web extractLinks htmlDir pdfDir s u rest status ct text co hq hmem hw hst
    obtain ⟨sq, sv, sfs, str⟩ := s
    simp only at hq hmem hw
    subst hq
    simp [crawlStep, hmem, hw, hst]
  · intro accept web extractLinks htmlDir pdfDir fuel start visited0 fs0
    exact (FetchOk_crawlLoop accept web extractLinks htmlDir pdfDir fuel
      { queue := [start], visited := visited0, fs := fs0, trace := [] }
      ⟨List.nodup_nil, by simp [fetchedUrls_nil]⟩).1

/-- Witness for `crawler_no_exception_amended` at a concrete failing step. -/
theorem crawler_no_exception_amended_witness :
    (crawlStep (scrapeAccept "x") webDown linksBfs "data/html" "data/pdfs"
        { queue := [urlA], visited := [], fs := [], trace := [] } =
      { queue := [], visited := [urlA], fs := [],
        trace := [Event.fetch urlA, Event.logFailure urlA] })
    ∧ (crawlStep (scrapeAccept "x") (fun _ => FetchResult.resp 404 "" "" []) linksBfs
        "data/html" "data/pdfs" { queue := [urlA], visited := [], fs := [], trace := [] } =
      { queue := [], visited := [urlA], fs := [],
        trace := [Event.fetch urlA, Event.logNon200 urlA 404] }) := by
  constructor
  · have h := crawler_no_exception_amended.1 (scrapeAccept "x") webDown linksBfs
      "data/html" "data/pdfs" { queue := [urlA], visited := [], fs := [], trace := [] }
      urlA [] rfl (by simp) rfl
    simpa using h
  · have h := crawler_no_exception_amended.2.1 (scrapeAccept "x")
      (fun _ => FetchResult.resp 404 "" "" []) linksBfs "data/html" "data/pdfs"
      { queue := [urlA], visited := [], fs := [], trace := [] } urlA [] 404 "" "" []
      rfl (by simp) rfl (by decide)
    simpa using h

/-! ## C10: PDF storage path depends only on the sanitized basename -/

/-- C10: the stored path of a PDF depends only on the sanitized basename of
the URL path, so two distinct URLs with colliding basenames map to the same
file; on the fixture run fetching `/d1/doc.pdf` then `/d2/doc.pdf`, the file
holds the first response's bytes, the second response body is stored nowhere,
and no error is logged. -/
theorem pdf_basename_collision :
    (∀ (pdfDir : String) (u v : Url), pyBasename u.path = pyBasename v.path →
      pdfTargetPath pdfDir u = pdfTargetPath pdfDir v)
    ∧ urlP1 ≠ urlP2
    ∧ pdfTargetPath (pdfDirOf cfgFix) urlP1 = pdfTargetPath (pdfDirOf cfgFix) urlP2
    ∧ (scrape cfgFix webPdf linksPdf 5 10 [] []).map
        (fun st => (fetchedUrls st.trace,
          fsGet st.fs (pdfTargetPath (pdfDirOf cfgFix) urlP1),
          st.fs.all (fun e => e.2 != FileData.bytes [2]),
          st.trace.all (fun e =>
            match e with
            | Event.logFailure _ => false
            | Event.logNon200 _ _ => false
            | _ => true)))
        = some ([urlA, urlP1, urlP2], some (FileData.bytes [1]), true, true) := by
  refine ⟨?_, by decide, by decide, by decide⟩
  intro pdfDir u v h
  simp only [pdfTargetPath, pdfFilenameOf, h]

/-- Witness for `pdf_basename_collision` at the colliding fixture URLs. -/
theorem pdf_basename_collision_witness :
    pyBasename urlP1.path = pyBasename urlP2.path
    ∧ pdfTargetPath "data/pdfs" urlP1 = pdfTargetPath "data/pdfs" urlP2 :=
  ⟨by decide, pdf_basename_collision.1 "data/pdfs" urlP1 urlP2 (by decide)⟩
